import Mathlib

/-!
A verification development for the `wonder` 7 Wonders engine.

The Rust source is shallowly embedded: pure functions become Lean
functions, mutation becomes explicit state passing, `i32` becomes `Int`
(the card counts involved are single digits, so no overflow behaviour is
observable), and `Vec<T>` becomes `List T`.

The repository snapshot mixes two revisions: `player.rs`, `game.rs` and
`card.rs` use the types `Resource` (a single resource kind) and `Cost`
(a signed per-kind basket with a `coins` field), whose defining module is
not part of the snapshot (the `resources.rs` present is an older revision
built around a `Resources` basket with the same field-wise semantics).
Those two types are therefore modelled from the spec, as marked below;
everything else is translated directly from the source files.

`options_for_card` is embedded in its `single_option == false` behaviour:
the `single_option == true` path only shuffles the choice list with a
global RNG and stops at the first emitted action, which is not modelled.
`Action::Wonder` is unimplemented in the source (`todo!()`, a panic
before any state is mutated); `can_play` is embedded as returning `false`
on it, and no theorem below quantifies over `Wonder` actions.
-/

set_option maxHeartbeats 1000000

namespace Wonder

/-- Modelled from the spec: the seven tangible material kinds ("two raw
pairs, two manufactured pairs"); the `resources.rs` defining the current
revision's `Resource` enum is missing from the snapshot. Coins are not a
`Resource`: they live in the `coins` field of `Cost`. -/
inductive Resource where
  | Wood
  | Stone
  | Ore
  | Clay
  | Glass
  | Loom
  | Papyrus
deriving DecidableEq, Repr, Inhabited

/-- Modelled from the spec: "a record holding a signed integer count per
resource kind", used as an amount owed (positive = still needed). The
defining `resources.rs` of this revision is missing from the snapshot;
the older `Resources` struct in the snapshot has the same fields and
field-wise arithmetic. -/
structure Cost where
  coins : Int := 0
  wood : Int := 0
  stone : Int := 0
  ore : Int := 0
  clay : Int := 0
  glass : Int := 0
  loom : Int := 0
  papyrus : Int := 0
deriving DecidableEq, Repr

def Cost.free : Cost := {}

def Cost.ofCoins (n : Int) : Cost := { coins := n }

def Cost.ofWood (n : Int) : Cost := { wood := n }

def Cost.ofStone (n : Int) : Cost := { stone := n }

def Cost.ofOre (n : Int) : Cost := { ore := n }

def Cost.ofClay (n : Int) : Cost := { clay := n }

def Cost.ofGlass (n : Int) : Cost := { glass := n }

def Cost.ofLoom (n : Int) : Cost := { loom := n }

def Cost.ofPapyrus (n : Int) : Cost := { papyrus := n }

/-- Modelled from the spec: "subtract a single resource kind" — the
`SubAssign<&Resource>` used as `*cost -= &resource` in `player.rs`. -/
def Cost.sub (c : Cost) (r : Resource) : Cost :=
  match r with
  | Resource.Wood => { c with wood := c.wood - 1 }
  | Resource.Stone => { c with stone := c.stone - 1 }
  | Resource.Ore => { c with ore := c.ore - 1 }
  | Resource.Clay => { c with clay := c.clay - 1 }
  | Resource.Glass => { c with glass := c.glass - 1 }
  | Resource.Loom => { c with loom := c.loom - 1 }
  | Resource.Papyrus => { c with papyrus := c.papyrus - 1 }

/-- Modelled from the spec: test "has a deficit in kind K" (field > 0) —
the `cost.has(&resource)` used by `add_choices` and the combination
loop of `player.rs`. -/
def Cost.has (c : Cost) (r : Resource) : Bool :=
  match r with
  | Resource.Wood => c.wood > 0
  | Resource.Stone => c.stone > 0
  | Resource.Ore => c.ore > 0
  | Resource.Clay => c.clay > 0
  | Resource.Glass => c.glass > 0
  | Resource.Loom => c.loom > 0
  | Resource.Papyrus => c.papyrus > 0

/-- Modelled from the spec: a basket "is satisfied iff every field is
≤ 0" — `Resources::satisfied` in the snapshot's older revision has
exactly these field-wise comparisons. -/
def Cost.satisfied (c : Cost) : Bool :=
  c.coins ≤ 0 && c.wood ≤ 0 && c.stone ≤ 0 && c.ore ≤ 0 && c.clay ≤ 0 &&
    c.glass ≤ 0 && c.loom ≤ 0 && c.papyrus ≤ 0

/-- `cost.coins += n`, written out since embedded mutation is explicit. -/
def Cost.addCoins (c : Cost) (n : Int) : Cost := { c with coins := c.coins + n }

/-- `cost.coins -= n`. -/
def Cost.subCoins (c : Cost) (n : Int) : Cost := { c with coins := c.coins - n }

/-- Source `power.rs`: the three science symbols. -/
inductive ScienceItem where
  | Compass
  | Cog
  | Tablet
deriving DecidableEq, Repr

/-- Source `power.rs`: `ProducedResources`. -/
inductive ProducedResources where
  | Single (resource : Resource)
  | Double (resource : Resource)
  | Choice (resources : List Resource)
deriving DecidableEq, Repr

/-- Source `power.rs`: `Power`. The `PerGameItemRewards` payload (a closure over
countable game items plus scope flags) is not consulted by any embedded
operation — `add_choices`, `immediate_strength` and `evaluate_green`
all treat it as "not a producer, not points, not science" — so it is
embedded as a bare constructor. -/
inductive Power where
  | PurchasableProducer (resources : ProducedResources)
  | Producer (resources : ProducedResources)
  | VictoryPoints (points : Nat)
  | Coins (coins : Nat)
  | BuyBrownAntiClockwise
  | BuyBrownClockwise
  | BuyGrey
  | Science (items : List ScienceItem)
  | Shields (shields : Nat)
  | PerGameItemRewards
deriving DecidableEq, Repr

/-- Source `card.rs`: `Colour`. -/
inductive Colour where
  | Brown
  | Grey
  | Blue
  | Yellow
  | Red
  | Green
  | Purple
deriving DecidableEq, Repr

/-- Source `card.rs`: the full card enum (all three ages plus the guilds). -/
inductive Card where
  | LumberYard
  | StonePit
  | ClayPool
  | OreVein
  | TreeFarm
  | Excavation
  | ClayPit
  | TimberYard
  | ForestCave
  | Mine
  | Loom1
  | Glassworks1
  | Press1
  | Pawnshop
  | Baths
  | Altar
  | Theater
  | Tavern
  | EastTradingPost
  | WestTradingPost
  | Marketplace
  | Apothecary
  | Workshop
  | Scriptorium
  | Stockade
  | Barracks
  | GuardTower
  | Sawmill
  | Quarry
  | Brickyard
  | Foundry
  | Loom2
  | Glassworks2
  | Press2
  | Aqueduct
  | Temple
  | Statue
  | Courthouse
  | Forum
  | Caravansery
  | Vineyard
  | Bazar
  | Dispensary
  | Laboratory
  | Library
  | School
  | Walls
  | TrainingGround
  | Stables
  | ArcheryRange
  | Pantheon
  | Gardens
  | TownHall
  | Palace
  | Senate
  | Haven
  | Lighthouse
  | ChamberOfCommerce
  | Arena
  | Lodge
  | Observatory
  | University
  | Academy
  | Study
  | Fortifications
  | Circus
  | Arsenal
  | SiegeWorkshop
  | WorkersGuild
  | CraftsmensGuild
  | TradersGuild
  | PhilosophersGuild
  | SpiesGuild
  | StrategistsGuild
  | ShipownersGuild
  | ScientistsGuild
  | MagistratesGuild
  | BuildersGuild
deriving DecidableEq, Repr, Inhabited

/-- Source `card.rs`: each card's fixed cost, from the `CardInfo` tables. -/
def Card.cost : Card → Cost
  | Card.LumberYard => Cost.free
  | Card.StonePit => Cost.free
  | Card.ClayPool => Cost.free
  | Card.OreVein => Cost.free
  | Card.TreeFarm => Cost.ofCoins 1
  | Card.Excavation => Cost.ofCoins 1
  | Card.ClayPit => Cost.ofCoins 1
  | Card.TimberYard => Cost.ofCoins 1
  | Card.ForestCave => Cost.ofCoins 1
  | Card.Mine => Cost.ofCoins 1
  | Card.Loom1 => Cost.free
  | Card.Glassworks1 => Cost.free
  | Card.Press1 => Cost.free
  | Card.Pawnshop => Cost.free
  | Card.Baths => Cost.ofStone 1
  | Card.Altar => Cost.free
  | Card.Theater => Cost.free
  | Card.Tavern => Cost.free
  | Card.EastTradingPost => Cost.free
  | Card.WestTradingPost => Cost.free
  | Card.Marketplace => Cost.free
  | Card.Apothecary => Cost.ofLoom 1
  | Card.Workshop => Cost.ofGlass 1
  | Card.Scriptorium => Cost.ofPapyrus 1
  | Card.Stockade => Cost.ofWood 1
  | Card.Barracks => Cost.ofOre 1
  | Card.GuardTower => Cost.ofClay 1
  | Card.Sawmill => Cost.ofCoins 1
  | Card.Quarry => Cost.ofCoins 1
  | Card.Brickyard => Cost.ofCoins 1
  | Card.Foundry => Cost.ofCoins 1
  | Card.Loom2 => Cost.free
  | Card.Glassworks2 => Cost.free
  | Card.Press2 => Cost.free
  | Card.Aqueduct => Cost.ofStone 3
  | Card.Temple => { wood := 1, clay := 1, glass := 1 }
  | Card.Statue => { wood := 1, ore := 2 }
  | Card.Courthouse => { clay := 2, loom := 1 }
  | Card.Forum => Cost.ofClay 2
  | Card.Caravansery => Cost.ofWood 2
  | Card.Vineyard => Cost.free
  | Card.Bazar => Cost.free
  | Card.Dispensary => { ore := 2, glass := 1 }
  | Card.Laboratory => { clay := 2, papyrus := 1 }
  | Card.Library => { stone := 2, loom := 1 }
  | Card.School => { wood := 1, papyrus := 1 }
  | Card.Walls => Cost.ofStone 3
  | Card.TrainingGround => { wood := 1, ore := 2 }
  | Card.Stables => { ore := 1, clay := 1, wood := 1 }
  | Card.ArcheryRange => { wood := 2, ore := 1 }
  | Card.Pantheon => { clay := 2, ore := 1, papyrus := 1, loom := 1, glass := 1 }
  | Card.Gardens => { wood := 2, clay := 2 }
  | Card.TownHall => { glass := 1, ore := 1, stone := 2 }
  | Card.Palace =>
      { glass := 1, papyrus := 1, loom := 1, clay := 1, wood := 1, ore := 1, stone := 1, coins := 0 }
  | Card.Senate => { ore := 1, stone := 1, wood := 2 }
  | Card.Haven => { loom := 1, ore := 1, wood := 1 }
  | Card.Lighthouse => { glass := 1, stone := 1 }
  | Card.ChamberOfCommerce => { clay := 2, papyrus := 1 }
  | Card.Arena => { ore := 1, stone := 2 }
  | Card.Lodge => { clay := 2, loom := 1, papyrus := 1 }
  | Card.Observatory => { ore := 2, glass := 1, loom := 1 }
  | Card.University => { wood := 2, papyrus := 1, glass := 1 }
  | Card.Academy => { stone := 3, glass := 1 }
  | Card.Study => { wood := 1, papyrus := 1, loom := 1 }
  | Card.Fortifications => { stone := 1, ore := 3 }
  | Card.Circus => { stone := 3, ore := 1 }
  | Card.Arsenal => { ore := 1, wood := 2, loom := 1 }
  | Card.SiegeWorkshop => { wood := 1, clay := 3 }
  | Card.WorkersGuild => { ore := 2, clay := 1, stone := 1, wood := 1 }
  | Card.CraftsmensGuild => { ore := 2, stone := 2 }
  | Card.TradersGuild => { loom := 1, papyrus := 1, glass := 1 }
  | Card.PhilosophersGuild => { clay := 3, loom := 1, papyrus := 1 }
  | Card.SpiesGuild => { clay := 3, glass := 1 }
  | Card.StrategistsGuild => { ore := 2, stone := 1, loom := 1 }
  | Card.ShipownersGuild => { wood := 3, papyrus := 1, glass := 1 }
  | Card.ScientistsGuild => { wood := 2, ore := 2, papyrus := 1 }
  | Card.MagistratesGuild => { wood := 3, stone := 1, loom := 1 }
  | Card.BuildersGuild => { stone := 2, clay := 2, glass := 1 }

/-- Source `card.rs`: each card's colour, from the `CardInfo` tables. -/
def Card.colour : Card → Colour
  | Card.LumberYard => Colour.Brown
  | Card.StonePit => Colour.Brown
  | Card.ClayPool => Colour.Brown
  | Card.OreVein => Colour.Brown
  | Card.TreeFarm => Colour.Brown
  | Card.Excavation => Colour.Brown
  | Card.ClayPit => Colour.Brown
  | Card.TimberYard => Colour.Brown
  | Card.ForestCave => Colour.Brown
  | Card.Mine => Colour.Brown
  | Card.Loom1 => Colour.Grey
  | Card.Glassworks1 => Colour.Grey
  | Card.Press1 => Colour.Grey
  | Card.Pawnshop => Colour.Blue
  | Card.Baths => Colour.Blue
  | Card.Altar => Colour.Blue
  | Card.Theater => Colour.Blue
  | Card.Tavern => Colour.Yellow
  | Card.EastTradingPost => Colour.Yellow
  | Card.WestTradingPost => Colour.Yellow
  | Card.Marketplace => Colour.Yellow
  | Card.Apothecary => Colour.Green
  | Card.Workshop => Colour.Green
  | Card.Scriptorium => Colour.Green
  | Card.Stockade => Colour.Red
  | Card.Barracks => Colour.Red
  | Card.GuardTower => Colour.Red
  | Card.Sawmill => Colour.Brown
  | Card.Quarry => Colour.Brown
  | Card.Brickyard => Colour.Brown
  | Card.Foundry => Colour.Brown
  | Card.Loom2 => Colour.Grey
  | Card.Glassworks2 => Colour.Grey
  | Card.Press2 => Colour.Grey
  | Card.Aqueduct => Colour.Blue
  | Card.Temple => Colour.Blue
  | Card.Statue => Colour.Blue
  | Card.Courthouse => Colour.Blue
  | Card.Forum => Colour.Yellow
  | Card.Caravansery => Colour.Yellow
  | Card.Vineyard => Colour.Yellow
  | Card.Bazar => Colour.Yellow
  | Card.Dispensary => Colour.Green
  | Card.Laboratory => Colour.Green
  | Card.Library => Colour.Green
  | Card.School => Colour.Green
  | Card.Walls => Colour.Red
  | Card.TrainingGround => Colour.Red
  | Card.Stables => Colour.Red
  | Card.ArcheryRange => Colour.Red
  | Card.Pantheon => Colour.Blue
  | Card.Gardens => Colour.Blue
  | Card.TownHall => Colour.Blue
  | Card.Palace => Colour.Blue
  | Card.Senate => Colour.Blue
  | Card.Haven => Colour.Yellow
  | Card.Lighthouse => Colour.Yellow
  | Card.ChamberOfCommerce => Colour.Yellow
  | Card.Arena => Colour.Yellow
  | Card.Lodge => Colour.Green
  | Card.Observatory => Colour.Green
  | Card.University => Colour.Green
  | Card.Academy => Colour.Green
  | Card.Study => Colour.Green
  | Card.Fortifications => Colour.Red
  | Card.Circus => Colour.Red
  | Card.Arsenal => Colour.Red
  | Card.SiegeWorkshop => Colour.Red
  | Card.WorkersGuild => Colour.Purple
  | Card.CraftsmensGuild => Colour.Purple
  | Card.TradersGuild => Colour.Purple
  | Card.PhilosophersGuild => Colour.Purple
  | Card.SpiesGuild => Colour.Purple
  | Card.StrategistsGuild => Colour.Purple
  | Card.ShipownersGuild => Colour.Purple
  | Card.ScientistsGuild => Colour.Purple
  | Card.MagistratesGuild => Colour.Purple
  | Card.BuildersGuild => Colour.Purple

/-- Source `card.rs`: each card's power, from the `CardInfo` tables. -/
def Card.power : Card → Power
  | Card.LumberYard => Power.PurchasableProducer (ProducedResources.Single Resource.Wood)
  | Card.StonePit => Power.PurchasableProducer (ProducedResources.Single Resource.Stone)
  | Card.ClayPool => Power.PurchasableProducer (ProducedResources.Single Resource.Clay)
  | Card.OreVein => Power.PurchasableProducer (ProducedResources.Single Resource.Ore)
  | Card.TreeFarm =>
      Power.PurchasableProducer (ProducedResources.Choice [Resource.Wood, Resource.Clay])
  | Card.Excavation =>
      Power.PurchasableProducer (ProducedResources.Choice [Resource.Stone, Resource.Clay])
  | Card.ClayPit =>
      Power.PurchasableProducer (ProducedResources.Choice [Resource.Clay, Resource.Ore])
  | Card.TimberYard =>
      Power.PurchasableProducer (ProducedResources.Choice [Resource.Stone, Resource.Wood])
  | Card.ForestCave =>
      Power.PurchasableProducer (ProducedResources.Choice [Resource.Wood, Resource.Ore])
  | Card.Mine =>
      Power.PurchasableProducer (ProducedResources.Choice [Resource.Ore, Resource.Stone])
  | Card.Loom1 => Power.PurchasableProducer (ProducedResources.Single Resource.Loom)
  | Card.Glassworks1 => Power.PurchasableProducer (ProducedResources.Single Resource.Glass)
  | Card.Press1 => Power.PurchasableProducer (ProducedResources.Single Resource.Papyrus)
  | Card.Pawnshop => Power.VictoryPoints 3
  | Card.Baths => Power.VictoryPoints 3
  | Card.Altar => Power.VictoryPoints 2
  | Card.Theater => Power.VictoryPoints 2
  | Card.Tavern => Power.Coins 5
  | Card.EastTradingPost => Power.BuyBrownAntiClockwise
  | Card.WestTradingPost => Power.BuyBrownClockwise
  | Card.Marketplace => Power.BuyGrey
  | Card.Apothecary => Power.Science [ScienceItem.Compass]
  | Card.Workshop => Power.Science [ScienceItem.Cog]
  | Card.Scriptorium => Power.Science [ScienceItem.Tablet]
  | Card.Stockade => Power.Shields 1
  | Card.Barracks => Power.Shields 1
  | Card.GuardTower => Power.Shields 1
  | Card.Sawmill => Power.PurchasableProducer (ProducedResources.Double Resource.Wood)
  | Card.Quarry => Power.PurchasableProducer (ProducedResources.Double Resource.Stone)
  | Card.Brickyard => Power.PurchasableProducer (ProducedResources.Double Resource.Clay)
  | Card.Foundry => Power.PurchasableProducer (ProducedResources.Double Resource.Ore)
  | Card.Loom2 => Power.PurchasableProducer (ProducedResources.Single Resource.Loom)
  | Card.Glassworks2 => Power.PurchasableProducer (ProducedResources.Single Resource.Glass)
  | Card.Press2 => Power.PurchasableProducer (ProducedResources.Single Resource.Papyrus)
  | Card.Aqueduct => Power.VictoryPoints 5
  | Card.Temple => Power.VictoryPoints 3
  | Card.Statue => Power.VictoryPoints 4
  | Card.Courthouse => Power.VictoryPoints 4
  | Card.Forum =>
      Power.Producer (ProducedResources.Choice [Resource.Loom, Resource.Glass, Resource.Papyrus])
  | Card.Caravansery =>
      Power.Producer
        (ProducedResources.Choice [Resource.Wood, Resource.Stone, Resource.Ore, Resource.Clay])
  | Card.Vineyard => Power.PerGameItemRewards
  | Card.Bazar => Power.PerGameItemRewards
  | Card.Dispensary => Power.Science [ScienceItem.Compass]
  | Card.Laboratory => Power.Science [ScienceItem.Cog]
  | Card.Library => Power.Science [ScienceItem.Tablet]
  | Card.School => Power.Science [ScienceItem.Tablet]
  | Card.Walls => Power.Shields 2
  | Card.TrainingGround => Power.Shields 2
  | Card.Stables => Power.Shields 2
  | Card.ArcheryRange => Power.Shields 2
  | Card.Pantheon => Power.VictoryPoints 7
  | Card.Gardens => Power.VictoryPoints 5
  | Card.TownHall => Power.VictoryPoints 6
  | Card.Palace => Power.VictoryPoints 8
  | Card.Senate => Power.VictoryPoints 6
  | Card.Haven => Power.PerGameItemRewards
  | Card.Lighthouse => Power.PerGameItemRewards
  | Card.ChamberOfCommerce => Power.PerGameItemRewards
  | Card.Arena => Power.PerGameItemRewards
  | Card.Lodge => Power.Science [ScienceItem.Compass]
  | Card.Observatory => Power.Science [ScienceItem.Cog]
  | Card.University => Power.Science [ScienceItem.Tablet]
  | Card.Academy => Power.Science [ScienceItem.Compass]
  | Card.Study => Power.Science [ScienceItem.Cog]
  | Card.Fortifications => Power.Shields 3
  | Card.Circus => Power.Shields 3
  | Card.Arsenal => Power.Shields 3
  | Card.SiegeWorkshop => Power.Shields 3
  | Card.WorkersGuild => Power.PerGameItemRewards
  | Card.CraftsmensGuild => Power.PerGameItemRewards
  | Card.TradersGuild => Power.PerGameItemRewards
  | Card.PhilosophersGuild => Power.PerGameItemRewards
  | Card.SpiesGuild => Power.PerGameItemRewards
  | Card.StrategistsGuild => Power.PerGameItemRewards
  | Card.ShipownersGuild => Power.PerGameItemRewards
  | Card.ScientistsGuild =>
      Power.Science [ScienceItem.Compass, ScienceItem.Cog, ScienceItem.Tablet]
  | Card.MagistratesGuild => Power.PerGameItemRewards
  | Card.BuildersGuild => Power.PerGameItemRewards

/-- Source `card.rs`: `immediate_strength` — victory-point powers score their
points, every other power scores zero. (The source returns `f32`; the
values are small naturals, embedded as `Int`.) -/
def Card.immediate_strength (c : Card) : Int :=
  match c.power with
  | Power.VictoryPoints points => (points : Int)
  | _ => 0

/-- Source `wonder.rs`: `WonderType`. -/
inductive WonderType where
  | ColossusOfRhodes
  | LighthouseOfAlexandria
  | TempleOfArtemis
  | HangingGardensOfBabylon
  | StatueOfZeus
  | MausoleumOfHalicarnassus
  | PyramidsOfGiza
deriving DecidableEq, Repr, Inhabited

/-- Source `wonder.rs`: `WonderSide`. -/
inductive WonderSide where
  | A
  | B
deriving DecidableEq, Repr, Inhabited

/-- Source `wonder.rs`: `WonderBoard`. -/
structure WonderBoard where
  wonder_type : WonderType
  wonder_side : WonderSide
deriving DecidableEq, Repr, Inhabited

/-- Source `wonder.rs`: each wonder's starting resource (one unit of a
single kind; the snapshot's older revision spells it `Resources::ore(1)`
etc., the revision used by `player.rs` subtracts it as a `Resource`). -/
def WonderType.starting_resource : WonderType → Resource
  | WonderType.ColossusOfRhodes => Resource.Ore
  | WonderType.LighthouseOfAlexandria => Resource.Glass
  | WonderType.TempleOfArtemis => Resource.Papyrus
  | WonderType.HangingGardensOfBabylon => Resource.Clay
  | WonderType.StatueOfZeus => Resource.Wood
  | WonderType.MausoleumOfHalicarnassus => Resource.Loom
  | WonderType.PyramidsOfGiza => Resource.Stone

def WonderBoard.starting_resource (w : WonderBoard) : Resource :=
  w.wonder_type.starting_resource

/-- Source `action.rs` (as used by `player.rs`): the borrowing of a
specific resource from a named neighbour structure. -/
structure Borrow where
  card : Card
  resource : Resource
deriving DecidableEq, Repr

/-- Source `action.rs`: resources borrowed from the left and right
neighbours as part of an action. -/
structure Borrowing where
  left : List Borrow
  right : List Borrow
deriving DecidableEq, Repr

def Borrowing.no_borrowing : Borrowing := ⟨[], []⟩

def Borrowing.has_borrowing (b : Borrowing) : Bool :=
  !b.left.isEmpty || !b.right.isEmpty

/-- Source `action.rs`: `Action`. -/
inductive Action where
  | Build (card : Card) (borrowing : Borrowing)
  | Wonder (card : Card) (borrowing : Borrowing)
  | Discard (card : Card)
deriving DecidableEq, Repr

/-- Source `action.rs`: `ActionOptions`. -/
structure ActionOptions where
  actions : List Action
deriving DecidableEq, Repr

def ActionOptions.possible (o : ActionOptions) : Bool := !o.actions.isEmpty

/-- Source `player.rs`: `PublicPlayer`, the public snapshot of a player. -/
structure PublicPlayer where
  wonder : WonderBoard
  built_structures : List Card
  coins : Int
deriving DecidableEq, Repr, Inhabited

/-- Source `player.rs`: `Player`. -/
structure Player where
  wonder : WonderBoard
  built_structures : List Card
  built_wonder_stages : List (Option Card)
  coins : Int
  hand : List Card
deriving DecidableEq, Repr, Inhabited

/-- Source `player.rs`: `Player::new` (three starting coins). -/
def Player.new (wonder_type : WonderType) (wonder_side : WonderSide) : Player :=
  { wonder := ⟨wonder_type, wonder_side⟩
    built_structures := []
    built_wonder_stages := []
    coins := 3
    hand := [] }

/-- Source `player.rs`: `PublicPlayer::new`. -/
def PublicPlayer.ofPlayer (p : Player) : PublicPlayer :=
  { wonder := p.wonder, built_structures := p.built_structures, coins := p.coins }

/-- Source `game.rs`: `VisibleGame`. -/
structure VisibleGame where
  public_players : List PublicPlayer
  player_index : Nat
deriving Repr

/-- Source `game.rs`: index of the clockwise ("left") neighbour. -/
def VisibleGame.left_neighbour_index (v : VisibleGame) : Nat :=
  (v.player_index + 1) % v.public_players.length

/-- Source `game.rs`: index of the anti-clockwise ("right") neighbour. -/
def VisibleGame.right_neighbour_index (v : VisibleGame) : Nat :=
  (v.player_index + v.public_players.length - 1) % v.public_players.length

/-- Source `game.rs`: the left neighbour's snapshot. Rust indexes the
slice (a panic when out of bounds, unreachable for the games the engine
builds); the embedding totalises with the `Inhabited` default. -/
def VisibleGame.left_neighbour (v : VisibleGame) : PublicPlayer :=
  v.public_players.getD v.left_neighbour_index default

/-- Source `game.rs`: the right neighbour's snapshot. -/
def VisibleGame.right_neighbour (v : VisibleGame) : PublicPlayer :=
  v.public_players.getD v.right_neighbour_index default

/-- Source `player.rs`: `Source` — where a usable resource comes from. -/
inductive Source where
  | Own
  | LeftNeighbour
  | RightNeighbour
deriving DecidableEq, Repr, Inhabited

/-- Source `player.rs`: `UsableResources`. -/
structure UsableResources where
  card : Card
  resources : List Resource
  source : Source
deriving DecidableEq, Repr, Inhabited

/-- Source `player.rs`: the entries `add_choices` pushes for one card:
neighbours' fixed producers give one entry per borrowable unit (two for
a Double), filtered to kinds still in deficit; Choice producers give one
entry with the option list filtered to kinds still in deficit; own fixed
producers give nothing (already handled by `reduce_by_own_resources`). -/
def produced_entries (card : Card) (pr : ProducedResources) (cost : Cost)
    (source : Source) : List UsableResources :=
  match pr with
  | ProducedResources.Single resource =>
      if source ≠ Source.Own ∧ cost.has resource then
        [{ card := card, resources := [resource], source := source }]
      else []
  | ProducedResources.Double resource =>
      if source ≠ Source.Own ∧ cost.has resource then
        [{ card := card, resources := [resource], source := source },
         { card := card, resources := [resource], source := source }]
      else []
  | ProducedResources.Choice resources =>
      let filtered := resources.filter (fun r => cost.has r)
      if filtered.isEmpty then []
      else [{ card := card, resources := filtered, source := source }]

/-- Source `player.rs`: `add_choices`. Only `Producer` powers of the
player's own cards and `PurchasableProducer` powers of anyone's cards
generate entries; a neighbour's `Producer` (yellow) power generates
nothing. The Rust pushes into a `&mut Vec`; the embedding returns the
pushed entries and call sites concatenate. -/
def card_entries (card : Card) (cost : Cost) (source : Source) : List UsableResources :=
  match card.power, source with
  | Power.Producer pr, Source.Own => produced_entries card pr cost Source.Own
  | Power.PurchasableProducer pr, _ => produced_entries card pr cost source
  | _, _ => []

/-- Source `player.rs`: `add_choices` (the `for card in cards` loop). -/
def add_choices (cards : List Card) (cost : Cost) (source : Source) :
    List UsableResources :=
  match cards with
  | [] => []
  | card :: rest => card_entries card cost source ++ add_choices rest cost source

/-- Source `player.rs`: `reduce_by_own_resources` — subtract the wonder's
starting resource, the player's coins, and every fixed Single/Double
production of the player's built structures (Choice producers untouched). -/
def reduce_by_own_resources (p : Player) (cost : Cost) : Cost :=
  let cost := cost.sub p.wonder.starting_resource
  let cost := cost.subCoins p.coins
  p.built_structures.foldl
    (fun c card =>
      match card.power with
      | Power.Producer pr | Power.PurchasableProducer pr =>
          match pr with
          | ProducedResources.Single r => c.sub r
          | ProducedResources.Double r => (c.sub r).sub r
          | ProducedResources.Choice _ => c
      | _ => c)
    cost

/-- Source `player.rs`: the per-entry branch count of the combination
loop — own entries are mandatory (one branch per option), neighbour
entries also have a "skip" branch. -/
def choice_len (ch : UsableResources) : Nat :=
  ch.resources.length + (if ch.source = Source.Own then 0 else 1)

/-- Source `player.rs`: `combinations`, the mixed-radix combination count. -/
def combination_count (choices : List UsableResources) : Nat :=
  choices.foldl (fun acc ch => acc * choice_len ch) 1

/-- Source `player.rs`: the body of the labelled `'outer` combination loop
of `options_for_card`, for one combination index: walk the entry list
decoding a mixed-radix digit per entry; apply own choices unconditionally;
for a chosen neighbour unit first require at least 2 spare coins, then
require the kind to still be in deficit (the pruning rule), then pay and
record the borrow. `none` models `continue 'outer`. -/
def run_combination : List UsableResources → Nat → Cost → List Borrow → List Borrow →
    Option (Cost × List Borrow × List Borrow)
  | [], _, cost, lb, rb => some (cost, lb, rb)
  | choice :: rest, c, cost, lb, rb =>
      let len := choice_len choice
      let index := c % len
      if choice.source = Source.Own then
        run_combination rest (c / len)
          (cost.sub (choice.resources.getD index Resource.Wood)) lb rb
      else if index > 0 then
        if cost.coins ≤ -2 then
          let r := choice.resources.getD (index - 1) Resource.Wood
          if cost.has r then
            let cost' := (cost.sub r).addCoins 2
            if choice.source = Source.LeftNeighbour then
              run_combination rest (c / len) cost' (lb ++ [⟨choice.card, r⟩]) rb
            else
              run_combination rest (c / len) cost' lb (rb ++ [⟨choice.card, r⟩])
          else none
        else none
      else run_combination rest (c / len) cost lb rb

/-- Source `player.rs`: `options_for_card` (the `single_option == false`
path; the `true` path only shuffles and truncates). -/
def options_for_card (p : Player) (card : Card) (vg : VisibleGame) : ActionOptions :=
  let cost := reduce_by_own_resources p card.cost
  if cost.satisfied then
    { actions := [Action.Build card Borrowing.no_borrowing] }
  else
    let choices :=
      add_choices p.built_structures cost Source.Own ++
        add_choices (vg.left_neighbour).built_structures cost Source.LeftNeighbour ++
        add_choices (vg.right_neighbour).built_structures cost Source.RightNeighbour
    if choices.isEmpty then { actions := [] }
    else
      { actions :=
          (List.range (combination_count choices)).filterMap (fun c =>
            match run_combination choices c cost [] [] with
            | some (cc, lb, rb) =>
                if cc.satisfied then
                  some (Action.Build card (Borrowing.mk lb rb))
                else none
            | none => none) }

/-- Source `Vec::swap_remove`: remove index `i` by moving the last
element into its place. Out-of-bounds `i` panics in Rust (unreachable at
the embedded call sites, which find the index first). -/
def swap_remove [Inhabited α] (l : List α) (i : Nat) : List α :=
  (l.set i (l.getLast?.getD default)).dropLast

/-- Source `player.rs`: the borrow-matching loop of the nested `check`
function of `can_play_card`: for each borrow find (and `swap_remove`) an
entry with the same card offering the borrowed kind, subtract the kind
from the cost and add the 2-coin borrowing price. -/
def check_borrows : List Borrow → List UsableResources → Cost → Option Cost
  | [], _, cost => some cost
  | borrow :: rest, choices, cost =>
      match choices.findIdx?
          (fun usable => decide (usable.card = borrow.card ∧ borrow.resource ∈ usable.resources)) with
      | some index =>
          check_borrows rest (swap_remove choices index)
            ((cost.sub borrow.resource).addCoins 2)
      | none => none

/-- Source `player.rs`: the nested `check` function of `can_play_card` —
build the neighbour's usable entries against the incoming cost (the
source tags them `LeftNeighbour` for both sides, with a comment that any
non-`Own` tag works) and match the claimed borrows against them. -/
def can_play_side (borrows : List Borrow) (neighbour : PublicPlayer) (cost : Cost) :
    Option Cost :=
  check_borrows borrows (add_choices neighbour.built_structures cost Source.LeftNeighbour) cost

/-- Source `player.rs`: one own-choice combination of the final loop of
`can_play_card` (every own entry is mandatory: one pick per entry). -/
def own_combination : List UsableResources → Nat → Cost → Cost
  | [], _, cost => cost
  | choice :: rest, c, cost =>
      let len := choice.resources.length
      let index := c % len
      own_combination rest (c / len) (cost.sub (choice.resources.getD index Resource.Wood))

/-- Source `player.rs`: the own-choice combination count of `can_play_card`. -/
def own_combination_count (choices : List UsableResources) : Nat :=
  choices.foldl (fun acc ch => acc * ch.resources.length) 1

/-- Source `player.rs`: `can_play_card` — hand membership, then borrow
checking against each neighbour in turn, then a search over the player's
own Choice producers for a combination satisfying what remains. -/
def can_play_card (p : Player) (card : Card) (borrowing : Borrowing)
    (vg : VisibleGame) : Bool :=
  if card ∈ p.hand then
    let cost := reduce_by_own_resources p card.cost
    match can_play_side borrowing.left vg.left_neighbour cost with
    | none => false
    | some cost1 =>
        match can_play_side borrowing.right vg.right_neighbour cost1 with
        | none => false
        | some cost2 =>
            let choices := add_choices p.built_structures cost2 Source.Own
            (List.range (own_combination_count choices)).any
              (fun c => (own_combination choices c cost2).satisfied)
  else false

/-- Source `player.rs`: `can_play`, totalised. `Action::Wonder` is
`todo!()` in the source — a panic, modelled honestly by `can_play?`
below — collapsed here into `false` so that Build/Discard properties can
be stated over a total function; only those two arms are faithful. -/
def can_play (p : Player) (a : Action) (vg : VisibleGame) : Bool :=
  match a with
  | Action.Build card borrowing => can_play_card p card borrowing vg
  | Action.Wonder _ _ => false
  | Action.Discard card => decide (card ∈ p.hand)

/-- Source `player.rs`: `Player::add_coins`. -/
def Player.add_coins (p : Player) (coins : Int) : Player :=
  { p with coins := p.coins + coins }

/-- Source `player.rs`: `Player::swap_hand` — replace the hand, returning
the old one. -/
def Player.swap_hand (p : Player) (new_hand : List Card) : Player × List Card :=
  ({ p with hand := new_hand }, p.hand)

/-- Source `player.rs`: the nested `remove_from_hand` of `do_action`
(find the card's position and `swap_remove` it; the source `unwrap`s the
position, which callers guarantee via `can_play`). -/
def remove_from_hand (hand : List Card) (card : Card) : List Card :=
  match hand.findIdx? (fun c => decide (c = card)) with
  | some index => swap_remove hand index
  | none => hand

/-- Result-state bundle for `do_action`: the returned `bool` plus every
piece of state the Rust method can mutate through `&mut`. -/
structure DoActionResult where
  ok : Bool
  player : Player
  left_player : Player
  right_player : Player
  discard_pile : List Card
deriving DecidableEq, Repr

/-- Source `player.rs`: `do_action`, totalised — validate with
`can_play`, then for a `Build` move the card from hand to built
structures, pay the card's coin cost plus 2 coins per borrow, and credit
2 coins per borrow to the live left/right neighbour; for a `Discard`
move the card to the discard pile and gain 3 coins; do nothing and
return `false` when the action is not legal. The `Wonder` arm is
`todo!()` (a panic) in the source; it is collapsed into a rejection here
and modelled honestly by `do_action?` below, which agrees with this
function on Build and Discard. -/
def do_action (p : Player) (a : Action) (vg : VisibleGame)
    (left_player right_player : Player) (discard_pile : List Card) : DoActionResult :=
  if can_play p a vg then
    match a with
    | Action.Build card borrowing =>
        { ok := true
          player :=
            { p with
              hand := remove_from_hand p.hand card
              built_structures := p.built_structures ++ [card]
              coins := p.coins - (card.cost).coins -
                ((borrowing.left.length : Int) * 2 + (borrowing.right.length : Int) * 2) }
          left_player := left_player.add_coins ((borrowing.left.length : Int) * 2)
          right_player := right_player.add_coins ((borrowing.right.length : Int) * 2)
          discard_pile := discard_pile }
    | Action.Wonder _ _ =>
        { ok := false, player := p, left_player := left_player,
          right_player := right_player, discard_pile := discard_pile }
    | Action.Discard card =>
        { ok := true
          player := { p with hand := remove_from_hand p.hand card, coins := p.coins + 3 }
          left_player := left_player
          right_player := right_player
          discard_pile := discard_pile ++ [card] }
  else
    { ok := false, player := p, left_player := left_player,
      right_player := right_player, discard_pile := discard_pile }

/-- Source `player.rs`: `can_play`, with the `Action::Wonder` arm's
`todo!()` modelled honestly: it is a panic, so the call returns nothing
at all, embedded as `none`. On Build and Discard actions this agrees
with the total `can_play` above, which collapses the panic into a
rejection and is only sound for those two constructors. -/
def can_play? (p : Player) (a : Action) (vg : VisibleGame) : Option Bool :=
  match a with
  | Action.Build card borrowing => some (can_play_card p card borrowing vg)
  | Action.Wonder _ _ => none
  | Action.Discard card => some (decide (card ∈ p.hand))

/-- Source `player.rs`: `do_action`, with both `todo!()` panics modelled
honestly as `none`: the `can_play` call raises the panic on a `Wonder`
action before any state is touched, and `do_action`'s own `Wonder` match
arm is `todo!()` as well. On Build and Discard actions this returns
exactly `some` of the total `do_action` above. -/
def do_action? (p : Player) (a : Action) (vg : VisibleGame)
    (left_player right_player : Player) (discard_pile : List Card) :
    Option DoActionResult :=
  match can_play? p a vg with
  | none => none
  | some ok =>
      if ok then
        match a with
        | Action.Build card borrowing =>
            some
              { ok := true
                player :=
                  { p with
                    hand := remove_from_hand p.hand card
                    built_structures := p.built_structures ++ [card]
                    coins := p.coins - (card.cost).coins -
                      ((borrowing.left.length : Int) * 2 +
                        (borrowing.right.length : Int) * 2) }
                left_player := left_player.add_coins ((borrowing.left.length : Int) * 2)
                right_player := right_player.add_coins ((borrowing.right.length : Int) * 2)
                discard_pile := discard_pile }
        | Action.Wonder _ _ => none
        | Action.Discard card =>
            some
              { ok := true
                player :=
                  { p with hand := remove_from_hand p.hand card, coins := p.coins + 3 }
                left_player := left_player
                right_player := right_player
                discard_pile := discard_pile ++ [card] }
      else
        some
          { ok := false
            player := p
            left_player := left_player
            right_player := right_player
            discard_pile := discard_pile }

/-- Running science-symbol counters, the embedding of the `HashMap`
`evaluate_green` preseeds with the three symbols at zero. -/
structure ScienceItemsCount where
  compass : Int
  cog : Int
  tablet : Int
deriving DecidableEq, Repr

def ScienceItemsCount.init : ScienceItemsCount := ⟨0, 0, 0⟩

def ScienceItemsCount.incr (s : ScienceItemsCount) : ScienceItem → ScienceItemsCount
  | ScienceItem.Compass => { s with compass := s.compass + 1 }
  | ScienceItem.Cog => { s with cog := s.cog + 1 }
  | ScienceItem.Tablet => { s with tablet := s.tablet + 1 }

/-- Source `player.rs`: the counting loop of `evaluate_green` — every
symbol listed by a Science power increments its counter. -/
def count_science_items (cards : List Card) : ScienceItemsCount :=
  cards.foldl
    (fun acc card =>
      match card.power with
      | Power.Science items => items.foldl (fun a it => a.incr it) acc
      | _ => acc)
    ScienceItemsCount.init

/-- Source `player.rs`: `evaluate_green` — 7 points per complete symbol
set (the minimum of the three counters) plus the square of every positive
counter. The source computes in `f32`; the values are small integers, so
the arithmetic is exact and embedded over `Int`. The `HashMap` iteration
order only affects the order of a sum, not its value. -/
def evaluate_green (colour_cards : List Card) : Int :=
  let counts := count_science_items colour_cards
  let score_for_sets :=
    (if counts.compass > 0 then counts.compass * counts.compass else 0) +
      (if counts.cog > 0 then counts.cog * counts.cog else 0) +
      (if counts.tablet > 0 then counts.tablet * counts.tablet else 0)
  let score_for_groups := 7 * min counts.compass (min counts.cog counts.tablet)
  score_for_groups + score_for_sets

/-- Source `player.rs`: `evaluate_colour` — green groups get the science
formula, every other colour the sum of immediate strengths. The source
`unwrap`s the group head; callers only pass nonempty groups, and the
embedding returns 0 on the unreachable empty group. -/
def evaluate_colour (cards_of_given_colour : List Card) : Int :=
  match cards_of_given_colour.head? with
  | none => 0
  | some card =>
      match card.colour with
      | Colour.Green => evaluate_green cards_of_given_colour
      | _ => (cards_of_given_colour.map Card.immediate_strength).sum

/-- Canonical colour order used to embed the colour-keyed `HashMap` of
`strength_internal`; the map's unspecified iteration order only permutes
a sum. -/
def colour_list : List Colour :=
  [Colour.Brown, Colour.Grey, Colour.Blue, Colour.Yellow, Colour.Red,
   Colour.Green, Colour.Purple]

/-- Source `player.rs`: `strength_internal` — partition the built cards
by colour (insertion order preserved inside each group, as with the
source's entry-push loop) and sum the per-colour evaluations; colours
with no cards have no map entry and contribute nothing. -/
def strength_internal (cards : List Card) : Int :=
  (colour_list.map (fun col =>
    let group := cards.filter (fun s => decide (s.colour = col))
    if group.isEmpty then 0 else evaluate_colour group)).sum

/-- Source `player.rs`: `Player::strength`. -/
def Player.strength (p : Player) : Int :=
  strength_internal p.built_structures

/-- Source `card.rs`: `Age`. -/
inductive Age where
  | First
  | Second
  | Third
deriving DecidableEq, Repr

/-- Source `game.rs`: `Game::age` — `none` models the `panic!` on a turn
outside 0..=17. -/
def game_age (turn : Nat) : Option Age :=
  if turn ≤ 5 then some Age.First
  else if turn ≤ 11 then some Age.Second
  else if turn ≤ 17 then some Age.Third
  else none

/-- Source `game.rs`: `get_mutable_player_and_neighbours`, embedded at the
level of the values it returns, `(right, player, left)`. The source
splits the seat vector into disjoint mutable slices, special-casing the
first and last index; each slice indexing that would panic is modelled
as `none` (unreachable for 3..=7 seats and a valid index). -/
def get_mutable_player_and_neighbours (players : List α) (index : Nat) :
    Option (α × α × α) :=
  if index = 0 then
    match players with
    | [] => none
    | player :: after =>
        match after.getLast? with
        | none => none
        | some right_player =>
            match after.dropLast.head? with
            | none => none
            | some left_player => some (right_player, player, left_player)
  else if index = players.length - 1 then
    match players.getLast? with
    | none => none
    | some player =>
        let before := players.dropLast
        match before.head? with
        | none => none
        | some left_player =>
            match before.tail.getLast? with
            | none => none
            | some right_player => some (right_player, player, left_player)
  else
    let before := players.take index
    let player_and_after := players.drop index
    let player_slice := player_and_after.take 1
    let after := player_and_after.drop 1
    match before[index - 1]?, player_slice[0]?, after[0]? with
    | some right_player, some player, some left_player =>
        some (right_player, player, left_player)
    | _, _, _ => none

/-- One iteration of the card-passing loop of `Game::do_turn`: seat
`index` receives the carried hand via `swap_hand`, whose previous hand is
carried on. -/
def rotate_step (hands : List (List Card)) (hand : List Card) (index : Nat) :
    List (List Card) × List Card :=
  (hands.set index hand, hands.getD index [])

/-- Source `game.rs`: the "Pass cards" loop of `do_turn` — a single
circular pass over `num_players + 1` swap steps, walking the seats
forwards (clockwise hand movement) normally and backwards in the second
age. -/
def pass_hands (hands : List (List Card)) (second_age : Bool) : List (List Card) :=
  let num_players := hands.length
  ((List.range (num_players + 1)).foldl
    (fun st i =>
      let index := (if second_age then num_players - i else i) % num_players
      rotate_step st.1 st.2 index)
    (hands, [])).1

/-- Predicate used by the claims: a power whose units a neighbour may buy
(the brown/grey `PurchasableProducer` powers, as opposed to the yellow
`Producer` powers). -/
def is_purchasable_producer : Power → Bool
  | Power.PurchasableProducer _ => true
  | _ => false

/-- Apply a list of own-Choice picks to a cost, one unit each. -/
def apply_picks (cost : Cost) (picks : List Resource) : Cost :=
  picks.foldl Cost.sub cost

/-- Pay a list of borrows: subtract each borrowed kind and add the fixed
2-coin borrowing price. -/
def pay_borrows (cost : Cost) (bs : List Borrow) : Cost :=
  bs.foldl (fun c b => (c.sub b.resource).addCoins 2) cost

/-- Specification-side replay of a borrow list, in application order:
every borrow must find its kind still in deficit at the point it is
applied (the pruning property of claim C4). -/
def borrows_needed : Cost → List Borrow → Bool
  | _, [] => true
  | cost, b :: rest =>
      cost.has b.resource && borrows_needed ((cost.sub b.resource).addCoins 2) rest

/-- Full replay of a borrow list with the combination loop's checks: at
each borrow at least 2 spare coins and the kind still in deficit. -/
def replay_borrows : Cost → List Borrow → Option Cost
  | cost, [] => some cost
  | cost, b :: rest =>
      if cost.coins ≤ -2 then
        if cost.has b.resource then
          replay_borrows ((cost.sub b.resource).addCoins 2) rest
        else none
      else none

/-- Specification-side science scoring formula of claim C7: 7 points per
complete set (the minimum of the three symbol counts) plus the square of
every positive count. -/
def science_score (compass cog tablet : Int) : Int :=
  7 * min compass (min cog tablet) +
    ((if compass > 0 then compass * compass else 0) +
      (if cog > 0 then cog * cog else 0) +
      (if tablet > 0 then tablet * tablet else 0))

/-- Specification-side strength formula of claim C7: non-green cards
contribute their immediate point values, and the green cards contribute
the science formula over their symbol counts. -/
def spec_strength (cards : List Card) : Int :=
  ((cards.filter (fun s => decide (s.colour ≠ Colour.Green))).map Card.immediate_strength).sum +
    (let counts := count_science_items (cards.filter (fun s => decide (s.colour = Colour.Green)))
     science_score counts.compass counts.cog counts.tablet)

/-- Material-field comparison between two costs (coins ignored): every
tangible deficit of the first is at most that of the second. -/
def matle (c₁ c₂ : Cost) : Prop :=
  c₁.wood ≤ c₂.wood ∧ c₁.stone ≤ c₂.stone ∧ c₁.ore ≤ c₂.ore ∧ c₁.clay ≤ c₂.clay ∧
    c₁.glass ≤ c₂.glass ∧ c₁.loom ≤ c₂.loom ∧ c₁.papyrus ≤ c₂.papyrus

/-- The resources a producing card's `add_choices` entries can offer
against a given cost: a fixed producer offers its kind, a Choice producer
its kinds filtered to those in deficit. -/
def resources_for (card : Card) (cost : Cost) : List Resource :=
  match card.power with
  | Power.Producer pr | Power.PurchasableProducer pr =>
      match pr with
      | ProducedResources.Single r => [r]
      | ProducedResources.Double r => [r]
      | ProducedResources.Choice rs => rs.filter (fun r => cost.has r)
  | _ => []

/-- How many `add_choices` entries one occurrence of a card generates. -/
def entry_count (card : Card) (cost : Cost) (source : Source) : Nat :=
  match card.power, source with
  | Power.Producer pr, Source.Own | Power.PurchasableProducer pr, _ =>
      (match pr with
       | ProducedResources.Single r => if cost.has r ∧ source ≠ Source.Own then 1 else 0
       | ProducedResources.Double r => if cost.has r ∧ source ≠ Source.Own then 2 else 0
       | ProducedResources.Choice rs =>
           if (rs.filter (fun r => cost.has r)).isEmpty then 0 else 1)
  | _, _ => 0

/-- Entries of a borrow list naming a given card. -/
def count_card_borrows (bs : List Borrow) (x : Card) : Nat :=
  (bs.filter (fun b => decide (b.card = x))).length

/-- Entries of a usable-resource list naming a given card. -/
def count_card_entries (es : List UsableResources) (x : Card) : Nat :=
  (es.filter (fun e => decide (e.card = x))).length

/-- Projection of a cost's material field for a resource kind. -/
def Cost.getRes (c : Cost) : Resource → Int
  | Resource.Wood => c.wood
  | Resource.Stone => c.stone
  | Resource.Ore => c.ore
  | Resource.Clay => c.clay
  | Resource.Glass => c.glass
  | Resource.Loom => c.loom
  | Resource.Papyrus => c.papyrus

theorem Cost.ext_res (a b : Cost) (hc : a.coins = b.coins)
    (h : ∀ r, a.getRes r = b.getRes r) : a = b := by
  have hw := h Resource.Wood
  have hs := h Resource.Stone
  have ho := h Resource.Ore
  have hcl := h Resource.Clay
  have hg := h Resource.Glass
  have hl := h Resource.Loom
  have hp := h Resource.Papyrus
  cases a
  cases b
  simp only [Cost.getRes] at hw hs ho hcl hg hl hp
  simp_all

theorem Cost.getRes_sub (c : Cost) (x r : Resource) :
    (c.sub x).getRes r = c.getRes r - (if x = r then 1 else 0) := by
  cases x <;> cases r <;> simp [Cost.sub, Cost.getRes]

theorem Cost.coins_sub (c : Cost) (x : Resource) : (c.sub x).coins = c.coins := by
  cases x <;> rfl

theorem Cost.getRes_addCoins (c : Cost) (n : Int) (r : Resource) :
    (c.addCoins n).getRes r = c.getRes r := by
  cases r <;> rfl

theorem Cost.coins_addCoins (c : Cost) (n : Int) : (c.addCoins n).coins = c.coins + n := rfl

theorem Cost.getRes_subCoins (c : Cost) (n : Int) (r : Resource) :
    (c.subCoins n).getRes r = c.getRes r := by
  cases r <;> rfl

theorem Cost.has_iff (c : Cost) (r : Resource) : c.has r = true ↔ 0 < c.getRes r := by
  cases r <;> simp [Cost.has, Cost.getRes]

theorem Cost.satisfied_iff (c : Cost) :
    c.satisfied = true ↔ c.coins ≤ 0 ∧ ∀ r, c.getRes r ≤ 0 := by
  constructor
  · intro h
    simp only [Cost.satisfied, Bool.and_eq_true, decide_eq_true_eq] at h
    refine ⟨h.1.1.1.1.1.1.1, ?_⟩
    intro r
    cases r <;> simp only [Cost.getRes] <;> omega
  · rintro ⟨hc, h⟩
    have hw := h Resource.Wood
    have hs := h Resource.Stone
    have ho := h Resource.Ore
    have hcl := h Resource.Clay
    have hg := h Resource.Glass
    have hl := h Resource.Loom
    have hp := h Resource.Papyrus
    simp only [Cost.getRes] at hw hs ho hcl hg hl hp
    simp only [Cost.satisfied, Bool.and_eq_true, decide_eq_true_eq]
    omega

theorem matle_iff (a b : Cost) : matle a b ↔ ∀ r, a.getRes r ≤ b.getRes r := by
  constructor
  · rintro ⟨h1, h2, h3, h4, h5, h6, h7⟩ r
    cases r <;> simpa [Cost.getRes]
  · intro h
    have hw := h Resource.Wood
    have hs := h Resource.Stone
    have ho := h Resource.Ore
    have hcl := h Resource.Clay
    have hg := h Resource.Glass
    have hl := h Resource.Loom
    have hp := h Resource.Papyrus
    simp only [Cost.getRes] at hw hs ho hcl hg hl hp
    exact ⟨hw, hs, ho, hcl, hg, hl, hp⟩

theorem matle_refl (a : Cost) : matle a a := by
  rw [matle_iff]
  intro r
  exact le_refl _

theorem matle_trans {a b c : Cost} (h1 : matle a b) (h2 : matle b c) : matle a c := by
  rw [matle_iff] at *
  intro r
  exact le_trans (h1 r) (h2 r)

theorem matle_sub_self (c : Cost) (r : Resource) : matle (c.sub r) c := by
  rw [matle_iff]
  intro x
  rw [Cost.getRes_sub]
  split <;> omega

theorem matle_addCoins (c : Cost) (n : Int) : matle (c.addCoins n) c := by
  rw [matle_iff]
  intro x
  rw [Cost.getRes_addCoins]

theorem matle_addCoins_rev (c : Cost) (n : Int) : matle c (c.addCoins n) := by
  rw [matle_iff]
  intro x
  rw [Cost.getRes_addCoins]

theorem Cost.has_of_matle {a b : Cost} {r : Resource} (h : matle a b)
    (ha : a.has r = true) : b.has r = true := by
  rw [Cost.has_iff] at *
  exact lt_of_lt_of_le ha ((matle_iff a b).mp h r)

theorem apply_picks_nil (c : Cost) : apply_picks c [] = c := rfl

theorem apply_picks_cons (c : Cost) (p : Resource) (ps : List Resource) :
    apply_picks c (p :: ps) = apply_picks (c.sub p) ps := rfl

theorem apply_picks_getRes (c : Cost) (ps : List Resource) (r : Resource) :
    (apply_picks c ps).getRes r = c.getRes r - (ps.count r : Int) := by
  induction ps generalizing c with
  | nil => simp [apply_picks_nil]
  | cons p ps ih =>
      rw [apply_picks_cons, ih, Cost.getRes_sub, List.count_cons]
      by_cases h : p = r <;> simp [h] <;> omega

theorem apply_picks_coins (c : Cost) (ps : List Resource) :
    (apply_picks c ps).coins = c.coins := by
  induction ps generalizing c with
  | nil => rfl
  | cons p ps ih => rw [apply_picks_cons, ih, Cost.coins_sub]

theorem apply_picks_matle (c : Cost) (ps : List Resource) : matle (apply_picks c ps) c := by
  rw [matle_iff]
  intro r
  rw [apply_picks_getRes]
  omega

theorem pay_borrows_nil (c : Cost) : pay_borrows c [] = c := rfl

theorem pay_borrows_cons (c : Cost) (b : Borrow) (bs : List Borrow) :
    pay_borrows c (b :: bs) = pay_borrows ((c.sub b.resource).addCoins 2) bs := rfl

theorem pay_borrows_append (c : Cost) (xs ys : List Borrow) :
    pay_borrows c (xs ++ ys) = pay_borrows (pay_borrows c xs) ys := by
  induction xs generalizing c with
  | nil => rfl
  | cons x xs ih => rw [List.cons_append, pay_borrows_cons, pay_borrows_cons, ih]

theorem pay_borrows_getRes (c : Cost) (bs : List Borrow) (r : Resource) :
    (pay_borrows c bs).getRes r = c.getRes r - ((bs.map Borrow.resource).count r : Int) := by
  induction bs generalizing c with
  | nil => simp [pay_borrows_nil]
  | cons b bs ih =>
      rw [pay_borrows_cons, ih, Cost.getRes_addCoins, Cost.getRes_sub, List.map_cons,
        List.count_cons]
      by_cases h : b.resource = r <;> simp [h] <;> omega

theorem pay_borrows_coins (c : Cost) (bs : List Borrow) :
    (pay_borrows c bs).coins = c.coins + 2 * (bs.length : Int) := by
  induction bs generalizing c with
  | nil => simp [pay_borrows_nil]
  | cons b bs ih =>
      rw [pay_borrows_cons, ih, Cost.coins_addCoins, Cost.coins_sub, List.length_cons]
      push_cast
      ring

theorem pay_borrows_matle (c : Cost) (bs : List Borrow) : matle (pay_borrows c bs) c := by
  rw [matle_iff]
  intro r
  rw [pay_borrows_getRes]
  omega

theorem pay_borrows_apply_picks (c : Cost) (ps : List Resource) (bs : List Borrow) :
    pay_borrows (apply_picks c ps) bs = apply_picks (pay_borrows c bs) ps := by
  apply Cost.ext_res
  · rw [pay_borrows_coins, apply_picks_coins, apply_picks_coins, pay_borrows_coins]
  · intro r
    rw [pay_borrows_getRes, apply_picks_getRes, apply_picks_getRes, pay_borrows_getRes]
    omega

theorem card_entries_spec (y : Card) (cost : Cost) (src : Source) (e : UsableResources)
    (he : e ∈ card_entries y cost src) :
    e.source = src ∧ e.card = y ∧ e.resources = resources_for y cost ∧ e.resources ≠ [] ∧
      (src ≠ Source.Own → is_purchasable_producer y.power = true) := by
  unfold card_entries at he
  cases hp : y.power with
  | Producer pr =>
      cases src with
      | Own =>
          rw [hp] at he
          cases pr with
          | Single r => simp [produced_entries] at he
          | Double r => simp [produced_entries] at he
          | Choice rs =>
              simp only [produced_entries] at he
              split at he
              · simp at he
              · simp at he
                subst he
                simp_all [resources_for]
      | LeftNeighbour => rw [hp] at he; simp at he
      | RightNeighbour => rw [hp] at he; simp at he
  | PurchasableProducer pr =>
      rw [hp] at he
      have hsplit : e ∈ produced_entries y pr cost src := by
        cases src <;> simpa using he
      clear he
      cases pr with
      | Single r =>
          simp only [produced_entries] at hsplit
          split at hsplit
          · rename_i hcond
            simp at hsplit
            subst hsplit
            simp_all [resources_for, is_purchasable_producer]
          · simp at hsplit
      | Double r =>
          simp only [produced_entries] at hsplit
          split at hsplit
          · rename_i hcond
            simp at hsplit
            subst hsplit
            simp_all [resources_for, is_purchasable_producer]
          · simp at hsplit
      | Choice rs =>
          simp only [produced_entries] at hsplit
          split at hsplit
          · simp at hsplit
          · simp at hsplit
            subst hsplit
            simp_all [resources_for, is_purchasable_producer]
  | VictoryPoints n => rw [hp] at he; cases src <;> simp at he
  | Coins n => rw [hp] at he; cases src <;> simp at he
  | BuyBrownAntiClockwise => rw [hp] at he; cases src <;> simp at he
  | BuyBrownClockwise => rw [hp] at he; cases src <;> simp at he
  | BuyGrey => rw [hp] at he; cases src <;> simp at he
  | Science items => rw [hp] at he; cases src <;> simp at he
  | Shields n => rw [hp] at he; cases src <;> simp at he
  | PerGameItemRewards => rw [hp] at he; cases src <;> simp at he

theorem add_choices_mem (cards : List Card) (cost : Cost) (src : Source)
    (e : UsableResources) (he : e ∈ add_choices cards cost src) :
    e.source = src ∧ e.card ∈ cards ∧ e.resources = resources_for e.card cost ∧
      e.resources ≠ [] ∧ (src ≠ Source.Own → is_purchasable_producer e.card.power = true) := by
  induction cards with
  | nil => simp [add_choices] at he
  | cons y rest ih =>
      simp only [add_choices] at he
      rcases List.mem_append.mp he with h | h
      · obtain ⟨h1, h2, h3, h4, h5⟩ := card_entries_spec y cost src e h
        subst h2
        exact ⟨h1, List.mem_cons_self _ _, h3, h4, h5⟩
      · obtain ⟨h1, h2, h3, h4, h5⟩ := ih h
        exact ⟨h1, List.mem_cons_of_mem _ h2, h3, h4, h5⟩

theorem replay_borrows_append (c : Cost) (xs ys : List Borrow) :
    replay_borrows c (xs ++ ys) = (replay_borrows c xs).bind (fun c2 => replay_borrows c2 ys) := by
  induction xs generalizing c with
  | nil => rfl
  | cons x xs ih =>
      simp only [List.cons_append, replay_borrows]
      split
      · split
        · exact ih _
        · rfl
      · rfl

theorem replay_borrows_eq_pay {c cc : Cost} {bs : List Borrow}
    (h : replay_borrows c bs = some cc) : cc = pay_borrows c bs := by
  induction bs generalizing c with
  | nil => simp [replay_borrows] at h; simp [pay_borrows_nil, h]
  | cons b bs ih =>
      simp only [replay_borrows] at h
      split at h
      · split at h
        · rw [pay_borrows_cons]
          exact ih h
        · exact absurd h (by simp)
      · exact absurd h (by simp)

theorem replay_borrows_needed {c cc : Cost} {bs : List Borrow}
    (h : replay_borrows c bs = some cc) : borrows_needed c bs = true := by
  induction bs generalizing c with
  | nil => rfl
  | cons b bs ih =>
      simp only [replay_borrows] at h
      split at h
      · split at h
        · rename_i hhas
          simp only [borrows_needed, Bool.and_eq_true]
          exact ⟨hhas, ih h⟩
        · exact absurd h (by simp)
      · exact absurd h (by simp)

theorem exists_picks (entries : List UsableResources)
    (h : ∀ e ∈ entries, e.resources ≠ []) :
    ∃ picks : List Resource,
      List.Forall₂ (fun (p : Resource) (e : UsableResources) => p ∈ e.resources) picks entries := by
  induction entries with
  | nil => exact ⟨[], List.Forall₂.nil⟩
  | cons e rest ih =>
      obtain ⟨picks, hp⟩ := ih (fun x hx => h x (List.mem_cons_of_mem _ hx))
      have hne := h e (List.mem_cons_self _ _)
      obtain ⟨r, hr⟩ := List.exists_mem_of_ne_nil e.resources hne
      exact ⟨r :: picks, List.Forall₂.cons hr hp⟩

theorem run_own_phase (chs : List UsableResources) (rest : List UsableResources)
    (c : Nat) (cost : Cost) (lb rb : List Borrow)
    (res : Option (Cost × List Borrow × List Borrow))
    (hsrc : ∀ ch ∈ chs, ch.source = Source.Own)
    (hne : ∀ ch ∈ chs, ch.resources ≠ [])
    (h : run_combination (chs ++ rest) c cost lb rb = res) :
    ∃ c2 picks,
      List.Forall₂ (fun (p : Resource) (ch : UsableResources) => p ∈ ch.resources) picks chs ∧
      run_combination rest c2 (apply_picks cost picks) lb rb = res := by
  induction chs generalizing c cost with
  | nil => exact ⟨c, [], List.Forall₂.nil, by simpa using h⟩
  | cons ch chs ih =>
      have hown : ch.source = Source.Own := hsrc ch (List.mem_cons_self _ _)
      have hlen : 0 < ch.resources.length :=
        List.length_pos.mpr (hne ch (List.mem_cons_self _ _))
      have hclen : choice_len ch = ch.resources.length := by
        simp [choice_len, hown]
      rw [List.cons_append] at h
      rw [run_combination] at h
      rw [if_pos hown] at h
      set len := choice_len ch with hlendef
      set index := c % len with hidx
      have hindexlt : index < ch.resources.length := by
        rw [hidx, hclen]
        exact Nat.mod_lt _ hlen
      set pick := ch.resources.getD index Resource.Wood with hpick
      have hpickmem : pick ∈ ch.resources := by
        rw [hpick, List.getD_eq_getElem _ _ hindexlt]
        exact List.getElem_mem _
      obtain ⟨c2, picks, hf, hrun⟩ :=
        ih (c / len) (cost.sub pick) (fun x hx => hsrc x (List.mem_cons_of_mem _ hx))
          (fun x hx => hne x (List.mem_cons_of_mem _ hx)) h
      exact ⟨c2, pick :: picks, List.Forall₂.cons hpickmem hf, by
        rwa [apply_picks_cons]⟩

theorem run_left_phase (chs : List UsableResources) (rest : List UsableResources)
    (c : Nat) (cost : Cost) (lb rb : List Borrow)
    (res : Cost × List Borrow × List Borrow)
    (hsrc : ∀ ch ∈ chs, ch.source = Source.LeftNeighbour)
    (h : run_combination (chs ++ rest) c cost lb rb = some res) :
    ∃ c2 newbs es cost2, es.Sublist chs ∧
      List.Forall₂
        (fun (b : Borrow) (e : UsableResources) => b.card = e.card ∧ b.resource ∈ e.resources)
        newbs es ∧
      replay_borrows cost newbs = some cost2 ∧
      run_combination rest c2 cost2 (lb ++ newbs) rb = some res := by
  induction chs generalizing c cost lb with
  | nil =>
      exact ⟨c, [], [], cost, List.Sublist.refl _, List.Forall₂.nil, rfl, by simpa using h⟩
  | cons ch chs ih =>
      have hleft : ch.source = Source.LeftNeighbour := hsrc ch (List.mem_cons_self _ _)
      have hnotown : ¬ (ch.source = Source.Own) := by rw [hleft]; simp
      rw [List.cons_append] at h
      rw [run_combination] at h
      rw [if_neg hnotown] at h
      set len := choice_len ch with hlendef
      set index := c % len with hidx
      by_cases hpos : index > 0
      · rw [if_pos hpos] at h
        by_cases hcoins : cost.coins ≤ -2
        · rw [if_pos hcoins] at h
          set r := ch.resources.getD (index - 1) Resource.Wood with hr
          by_cases hhas : cost.has r = true
          · rw [if_pos hhas, if_pos hleft] at h
            obtain ⟨c2, newbs, es, cost2, hsub, hf, hreplay, hrun⟩ :=
              ih (c / len) ((cost.sub r).addCoins 2) (lb ++ [⟨ch.card, r⟩])
                (fun x hx => hsrc x (List.mem_cons_of_mem _ hx)) h
            have hindexlt : index - 1 < ch.resources.length := by
              have : index < len := Nat.mod_lt _ (by
                rw [hlendef]
                simp [choice_len, hnotown])
              have hlenval : len = ch.resources.length + 1 := by
                rw [hlendef]
                simp [choice_len, hnotown]
              omega
            have hrmem : r ∈ ch.resources := by
              rw [hr, List.getD_eq_getElem _ _ hindexlt]
              exact List.getElem_mem _
            refine ⟨c2, ⟨ch.card, r⟩ :: newbs, ch :: es, cost2, List.Sublist.cons₂ _ hsub,
              List.Forall₂.cons ⟨rfl, hrmem⟩ hf, ?_, ?_⟩
            · simp only [replay_borrows]
              rw [if_pos hcoins, if_pos hhas]
              exact hreplay
            · rw [List.append_assoc] at hrun
              simpa using hrun
          · rw [if_neg hhas] at h
            simp at h
        · rw [if_neg hcoins] at h
          simp at h
      · rw [if_neg hpos] at h
        obtain ⟨c2, newbs, es, cost2, hsub, hf, hreplay, hrun⟩ :=
          ih (c / len) cost lb (fun x hx => hsrc x (List.mem_cons_of_mem _ hx)) h
        exact ⟨c2, newbs, es, cost2, List.Sublist.cons _ hsub, hf, hreplay, hrun⟩

theorem run_right_phase (chs : List UsableResources)
    (c : Nat) (cost : Cost) (lb rb : List Borrow)
    (res : Cost × List Borrow × List Borrow)
    (hsrc : ∀ ch ∈ chs, ch.source = Source.RightNeighbour)
    (h : run_combination chs c cost lb rb = some res) :
    ∃ newbs es cost2, es.Sublist chs ∧
      List.Forall₂
        (fun (b : Borrow) (e : UsableResources) => b.card = e.card ∧ b.resource ∈ e.resources)
        newbs es ∧
      replay_borrows cost newbs = some cost2 ∧
      res = (cost2, lb, rb ++ newbs) := by
  induction chs generalizing c cost rb with
  | nil =>
      refine ⟨[], [], cost, List.Sublist.refl _, List.Forall₂.nil, rfl, ?_⟩
      simp only [run_combination] at h
      simp at h
      simp [← h]
  | cons ch chs ih =>
      have hright : ch.source = Source.RightNeighbour := hsrc ch (List.mem_cons_self _ _)
      have hnotown : ¬ (ch.source = Source.Own) := by rw [hright]; simp
      have hnotleft : ¬ (ch.source = Source.LeftNeighbour) := by rw [hright]; simp
      rw [run_combination] at h
      rw [if_neg hnotown] at h
      set len := choice_len ch with hlendef
      set index := c % len with hidx
      by_cases hpos : index > 0
      · rw [if_pos hpos] at h
        by_cases hcoins : cost.coins ≤ -2
        · rw [if_pos hcoins] at h
          set r := ch.resources.getD (index - 1) Resource.Wood with hr
          by_cases hhas : cost.has r = true
          · rw [if_pos hhas, if_neg hnotleft] at h
            obtain ⟨newbs, es, cost2, hsub, hf, hreplay, hres⟩ :=
              ih (c / len) ((cost.sub r).addCoins 2) (rb ++ [⟨ch.card, r⟩])
                (fun x hx => hsrc x (List.mem_cons_of_mem _ hx)) h
            have hindexlt : index - 1 < ch.resources.length := by
              have : index < len := Nat.mod_lt _ (by
                rw [hlendef]
                simp [choice_len, hnotown])
              have hlenval : len = ch.resources.length + 1 := by
                rw [hlendef]
                simp [choice_len, hnotown]
              omega
            have hrmem : r ∈ ch.resources := by
              rw [hr, List.getD_eq_getElem _ _ hindexlt]
              exact List.getElem_mem _
            refine ⟨⟨ch.card, r⟩ :: newbs, ch :: es, cost2, List.Sublist.cons₂ _ hsub,
              List.Forall₂.cons ⟨rfl, hrmem⟩ hf, ?_, ?_⟩
            · simp only [replay_borrows]
              rw [if_pos hcoins, if_pos hhas]
              exact hreplay
            · rw [List.append_assoc] at hres
              simpa using hres
          · rw [if_neg hhas] at h
            simp at h
        · rw [if_neg hcoins] at h
          simp at h
      · rw [if_neg hpos] at h
        obtain ⟨newbs, es, cost2, hsub, hf, hreplay, hres⟩ :=
          ih (c / len) cost rb (fun x hx => hsrc x (List.mem_cons_of_mem _ hx)) h
        exact ⟨newbs, es, cost2, List.Sublist.cons _ hsub, hf, hreplay, hres⟩

/-- The full entry list `options_for_card` enumerates over: the player's
own Choice entries, then the left neighbour's borrowable entries, then
the right neighbour's. -/
def resolver_choices (p : Player) (card : Card) (vg : VisibleGame) : List UsableResources :=
  let cost := reduce_by_own_resources p card.cost
  add_choices p.built_structures cost Source.Own ++
    add_choices (vg.left_neighbour).built_structures cost Source.LeftNeighbour ++
    add_choices (vg.right_neighbour).built_structures cost Source.RightNeighbour

theorem options_for_card_eq (p : Player) (card : Card) (vg : VisibleGame) :
    options_for_card p card vg =
      if (reduce_by_own_resources p card.cost).satisfied then
        { actions := [Action.Build card Borrowing.no_borrowing] }
      else if (resolver_choices p card vg).isEmpty then { actions := [] }
      else
        { actions :=
            (List.range (combination_count (resolver_choices p card vg))).filterMap (fun c =>
              match run_combination (resolver_choices p card vg) c
                  (reduce_by_own_resources p card.cost) [] [] with
              | some (cc, lb, rb) =>
                  if cc.satisfied then
                    some (Action.Build card (Borrowing.mk lb rb))
                  else none
              | none => none) } := rfl

theorem mem_options_not_satisfied (p : Player) (card : Card) (vg : VisibleGame) (a : Action)
    (hns : (reduce_by_own_resources p card.cost).satisfied = false) :
    a ∈ (options_for_card p card vg).actions ↔
      ∃ c, c < combination_count (resolver_choices p card vg) ∧
        ∃ cc l r,
          run_combination (resolver_choices p card vg) c
              (reduce_by_own_resources p card.cost) [] [] = some (cc, l, r) ∧
          cc.satisfied = true ∧ a = Action.Build card (Borrowing.mk l r) := by
  rw [options_for_card_eq, if_neg (by simp [hns])]
  by_cases hemp : (resolver_choices p card vg).isEmpty
  · rw [if_pos hemp]
    simp only [List.not_mem_nil, false_iff]
    rintro ⟨c, hc, cc, l, r, hrun, hsat, ha⟩
    rw [List.isEmpty_iff] at hemp
    rw [hemp] at hrun
    have hcc : cc = reduce_by_own_resources p card.cost := by
      simp only [run_combination, Option.some.injEq, Prod.mk.injEq] at hrun
      exact hrun.1.symm
    rw [hcc, hns] at hsat
    exact Bool.false_ne_true hsat
  · rw [if_neg hemp]
    simp only [List.mem_filterMap, List.mem_range]
    constructor
    · rintro ⟨c, hc, hf⟩
      refine ⟨c, hc, ?_⟩
      rcases hrun : run_combination (resolver_choices p card vg) c
          (reduce_by_own_resources p card.cost) [] [] with _ | ⟨⟨cc, l, r⟩⟩
      · rw [hrun] at hf
        simp at hf
      · rw [hrun] at hf
        cases hsat : cc.satisfied with
        | false => simp [hsat] at hf
        | true =>
            simp [hsat] at hf
            exact ⟨cc, l, r, rfl, hsat, hf.symm⟩
    · rintro ⟨c, hc, cc, l, r, hrun, hsat, ha⟩
      refine ⟨c, hc, ?_⟩
      rw [hrun]
      simp [hsat, ha]

theorem options_emit (p : Player) (card : Card) (vg : VisibleGame) (a : Action)
    (ha : a ∈ (options_for_card p card vg).actions) :
    ((reduce_by_own_resources p card.cost).satisfied = true ∧
      a = Action.Build card Borrowing.no_borrowing) ∨
    ((reduce_by_own_resources p card.cost).satisfied = false ∧
      ∃ l r picks es_l es_r,
        a = Action.Build card (Borrowing.mk l r) ∧
        List.Forall₂ (fun (pk : Resource) (ch : UsableResources) => pk ∈ ch.resources) picks
          (add_choices p.built_structures (reduce_by_own_resources p card.cost) Source.Own) ∧
        es_l.Sublist
          (add_choices (vg.left_neighbour).built_structures
            (reduce_by_own_resources p card.cost) Source.LeftNeighbour) ∧
        List.Forall₂
          (fun (b : Borrow) (e : UsableResources) => b.card = e.card ∧ b.resource ∈ e.resources)
          l es_l ∧
        es_r.Sublist
          (add_choices (vg.right_neighbour).built_structures
            (reduce_by_own_resources p card.cost) Source.RightNeighbour) ∧
        List.Forall₂
          (fun (b : Borrow) (e : UsableResources) => b.card = e.card ∧ b.resource ∈ e.resources)
          r es_r ∧
        replay_borrows (apply_picks (reduce_by_own_resources p card.cost) picks) (l ++ r) =
          some (pay_borrows (apply_picks (reduce_by_own_resources p card.cost) picks) (l ++ r)) ∧
        (pay_borrows (apply_picks (reduce_by_own_resources p card.cost) picks)
          (l ++ r)).satisfied = true) := by
  set cost0 := reduce_by_own_resources p card.cost with hcost0
  by_cases hsat : cost0.satisfied
  · left
    refine ⟨hsat, ?_⟩
    rw [options_for_card_eq, if_pos (by rw [← hcost0]; exact hsat)] at ha
    simpa using ha
  · right
    have hns : cost0.satisfied = false := by
      exact Bool.not_eq_true _ ▸ (by simpa using hsat)
    refine ⟨hns, ?_⟩
    rw [mem_options_not_satisfied p card vg a (by rw [← hcost0]; exact hns)] at ha
    obtain ⟨c, hc, cc, l, r, hrun, hccsat, haeq⟩ := ha
    rw [← hcost0] at hrun
    set ownE := add_choices p.built_structures cost0 Source.Own with hownE
    set leftE := add_choices (vg.left_neighbour).built_structures cost0
      Source.LeftNeighbour with hleftE
    set rightE := add_choices (vg.right_neighbour).built_structures cost0
      Source.RightNeighbour with hrightE
    have hchoices : resolver_choices p card vg = ownE ++ (leftE ++ rightE) := by
      rw [resolver_choices]
      rw [← hcost0, ← hownE, ← hleftE, ← hrightE, List.append_assoc]
    rw [hchoices] at hrun
    obtain ⟨c1, picks, hpicks, hrun1⟩ :=
      run_own_phase ownE (leftE ++ rightE) c cost0 [] [] (some (cc, l, r))
        (fun e he => (add_choices_mem _ _ _ e (hownE ▸ he)).1)
        (fun e he => (add_choices_mem _ _ _ e (hownE ▸ he)).2.2.2.1) hrun
    obtain ⟨c2, newbsL, esL, cost2, hsubL, hfL, hreplayL, hrun2⟩ :=
      run_left_phase leftE rightE c1 (apply_picks cost0 picks) [] [] (cc, l, r)
        (fun e he => (add_choices_mem _ _ _ e (hleftE ▸ he)).1) hrun1
    rw [List.nil_append] at hrun2
    obtain ⟨newbsR, esR, cost3, hsubR, hfR, hreplayR, hres⟩ :=
      run_right_phase rightE c2 cost2 newbsL [] (cc, l, r)
        (fun e he => (add_choices_mem _ _ _ e (hrightE ▸ he)).1) hrun2
    rw [List.nil_append] at hres
    obtain ⟨hcc, hl, hr⟩ : cc = cost3 ∧ l = newbsL ∧ r = newbsR := by
      injection hres with h1 h2
      injection h2 with h2 h3
      exact ⟨h1, h2, h3⟩
    have hreplay : replay_borrows (apply_picks cost0 picks) (l ++ r) = some cost3 := by
      rw [hl, hr, replay_borrows_append, hreplayL]
      simpa using hreplayR
    have hpay : cost3 = pay_borrows (apply_picks cost0 picks) (l ++ r) :=
      replay_borrows_eq_pay hreplay
    refine ⟨l, r, picks, esL, esR, haeq, ?_, ?_, ?_, ?_, ?_, ?_, ?_⟩
    · exact hpicks
    · exact hsubL
    · rw [hl]
      exact hfL
    · exact hsubR
    · rw [hr]
      exact hfR
    · rw [← hpay]
      exact hreplay
    · rw [← hpay, ← hcc]
      exact hccsat

theorem forall₂_mem_left {R : α → β → Prop} {xs : List α} {ys : List β}
    (h : List.Forall₂ R xs ys) {x : α} (hx : x ∈ xs) : ∃ y ∈ ys, R x y := by
  induction h with
  | nil => simp at hx
  | cons hr _ ih =>
      rcases List.mem_cons.mp hx with rfl | hx2
      · exact ⟨_, List.mem_cons_self _ _, hr⟩
      · obtain ⟨y, hy, hry⟩ := ih hx2
        exact ⟨y, List.mem_cons_of_mem _ hy, hry⟩

/-- Concrete fixture matching the source's unit-test helper `new_player`:
a Colossus-of-Rhodes player (starting resource ore, 3 coins) holding the
given hand. -/
def demo_player (hand : List Card) : Player :=
  ((Player.new WonderType.ColossusOfRhodes WonderSide.A).swap_hand hand).1

/-- Concrete fixture matching the source's unit-test helper
`players_with_resources`: three public players, the acting player at
index 1, with the given left and right neighbour boards. -/
def demo_public_players (l r : List Card) : List PublicPlayer :=
  [ { wonder := ⟨WonderType.ColossusOfRhodes, WonderSide.A⟩, built_structures := r, coins := 0 },
    { wonder := ⟨WonderType.LighthouseOfAlexandria, WonderSide.A⟩, built_structures := [],
      coins := 0 },
    { wonder := ⟨WonderType.TempleOfArtemis, WonderSide.A⟩, built_structures := l, coins := 0 } ]

/-- Concrete fixture matching the source's unit-test helper `visible_game`. -/
def demo_visible_game (l r : List Card) : VisibleGame :=
  { public_players := demo_public_players l r, player_index := 1 }

/-- Claim C1: whenever a card's cost (coin component included) is fully
covered by the player's coins, the wonder's starting resource and the
fixed Single/Double production of the player's own built structures —
that is, the residual cost after `reduce_by_own_resources` is satisfied —
`options_for_card` returns exactly one action: a Build of that card with
an empty Borrowing. -/
theorem C1_residual_satisfied_single_action (p : Player) (card : Card) (vg : VisibleGame)
    (h : (reduce_by_own_resources p card.cost).satisfied = true) :
    (options_for_card p card vg).actions = [Action.Build card Borrowing.no_borrowing] := by
  rw [options_for_card_eq, if_pos h]

theorem C1_residual_satisfied_single_action_witness :
    (reduce_by_own_resources (demo_player []) Card.Barracks.cost).satisfied = true ∧
    (options_for_card (demo_player []) Card.Barracks (demo_visible_game [] [])).actions =
      [Action.Build Card.Barracks Borrowing.no_borrowing] :=
  ⟨by decide, C1_residual_satisfied_single_action (demo_player []) Card.Barracks
    (demo_visible_game [] []) (by decide)⟩

/-- Claim C4: no Build action returned by `options_for_card` borrows a
resource kind that is no longer in deficit at the point that borrow is
applied — replaying the action (some assignment of the player's own
Choice producers, then the left borrows, then the right borrows, in
emission order) finds every borrowed kind still in deficit when it is
taken. -/
theorem C4_no_unneeded_borrows (p : Player) (card : Card) (vg : VisibleGame)
    (l r : List Borrow)
    (ha : Action.Build card (Borrowing.mk l r) ∈ (options_for_card p card vg).actions) :
    ∃ picks : List Resource,
      List.Forall₂ (fun (pk : Resource) (ch : UsableResources) => pk ∈ ch.resources) picks
        (add_choices p.built_structures (reduce_by_own_resources p card.cost) Source.Own) ∧
      borrows_needed (apply_picks (reduce_by_own_resources p card.cost) picks)
        (l ++ r) = true := by
  rcases options_emit p card vg _ ha with ⟨hsat, heq⟩ |
    ⟨hns, l', r', picks, esL, esR, heq, hpicks, hsubL, hfL, hsubR, hfR, hreplay, hccsat⟩
  · obtain ⟨hl, hr⟩ : l = [] ∧ r = [] := by
      injection heq with h1 h2
      rw [Borrowing.no_borrowing] at h2
      injection h2 with h2 h3
      exact ⟨h2, h3⟩
    obtain ⟨picks, hpicks⟩ := exists_picks
      (add_choices p.built_structures (reduce_by_own_resources p card.cost) Source.Own)
      (fun e he => (add_choices_mem _ _ _ e he).2.2.2.1)
    refine ⟨picks, hpicks, ?_⟩
    rw [hl, hr]
    rfl
  · obtain ⟨hl, hr⟩ : l = l' ∧ r = r' := by
      injection heq with h1 h2
      injection h2 with h2 h3
      exact ⟨h2, h3⟩
    refine ⟨picks, hpicks, ?_⟩
    rw [hl, hr]
    exact replay_borrows_needed hreplay

theorem C4_no_unneeded_borrows_witness :
    ∃ picks : List Resource,
      List.Forall₂ (fun (pk : Resource) (ch : UsableResources) => pk ∈ ch.resources) picks
        (add_choices (demo_player []).built_structures
          (reduce_by_own_resources (demo_player []) Card.Stockade.cost) Source.Own) ∧
      borrows_needed
        (apply_picks (reduce_by_own_resources (demo_player []) Card.Stockade.cost) picks)
        ([Borrow.mk Card.LumberYard Resource.Wood] ++ []) = true :=
  C4_no_unneeded_borrows (demo_player []) Card.Stockade
    (demo_visible_game [Card.LumberYard] []) [Borrow.mk Card.LumberYard Resource.Wood] []
    (by decide)

/-- Claim C5: every borrow in every action returned by `options_for_card`
names a neighbour structure whose power is a purchasable (brown/grey)
producer; a neighbour's yellow producer is never borrowed even when it
produces a needed kind (the Caravansery board below), while the player's
own yellow producers remain usable by the player themself (the
Sawmill-plus-Caravansery board below affords Baths without borrowing). -/
theorem C5_only_purchasable_borrows :
    (∀ (p : Player) (card : Card) (vg : VisibleGame) (l r : List Borrow),
      Action.Build card (Borrowing.mk l r) ∈ (options_for_card p card vg).actions →
      ∀ b ∈ l ++ r, is_purchasable_producer (Card.power b.card) = true) ∧
    (options_for_card (demo_player []) Card.Stockade
      (demo_visible_game [Card.Caravansery] [])).actions = [] ∧
    (options_for_card
      { wonder := ⟨WonderType.ColossusOfRhodes, WonderSide.A⟩
        built_structures := [Card.Sawmill, Card.Caravansery]
        built_wonder_stages := []
        coins := 2
        hand := [] } Card.Baths (demo_visible_game [] [])).actions =
      [Action.Build Card.Baths Borrowing.no_borrowing] := by
  refine ⟨?_, by decide, by decide⟩
  intro p card vg l r ha b hb
  rcases options_emit p card vg _ ha with ⟨hsat, heq⟩ |
    ⟨hns, l', r', picks, esL, esR, heq, hpicks, hsubL, hfL, hsubR, hfR, hreplay, hccsat⟩
  · obtain ⟨hl, hr⟩ : l = [] ∧ r = [] := by
      injection heq with h1 h2
      rw [Borrowing.no_borrowing] at h2
      injection h2 with h2 h3
      exact ⟨h2, h3⟩
    rw [hl, hr] at hb
    simp at hb
  · obtain ⟨hl, hr⟩ : l = l' ∧ r = r' := by
      injection heq with h1 h2
      injection h2 with h2 h3
      exact ⟨h2, h3⟩
    rcases List.mem_append.mp hb with hbl | hbr
    · rw [hl] at hbl
      obtain ⟨e, he, hbcard, hbres⟩ := forall₂_mem_left hfL hbl
      have hemem := hsubL.subset he
      have hspec := add_choices_mem _ _ _ e hemem
      rw [hbcard]
      exact hspec.2.2.2.2 (by simp)
    · rw [hr] at hbr
      obtain ⟨e, he, hbcard, hbres⟩ := forall₂_mem_left hfR hbr
      have hemem := hsubR.subset he
      have hspec := add_choices_mem _ _ _ e hemem
      rw [hbcard]
      exact hspec.2.2.2.2 (by simp)

theorem C5_only_purchasable_borrows_witness :
    is_purchasable_producer (Card.power Card.LumberYard) = true :=
  C5_only_purchasable_borrows.1 (demo_player []) Card.Stockade
    (demo_visible_game [Card.LumberYard] []) [Borrow.mk Card.LumberYard Resource.Wood] []
    (by decide) (Borrow.mk Card.LumberYard Resource.Wood) (by simp)

/-- Claim C10: `options_for_card` never examines the acting player's
hand — its result is invariant under replacing the hand — and it returns
Build actions for affordable cards even when the card is not in the hand
(the free Lumber Yard below, with an empty hand); possession of the card
is enforced only by `can_play` (and hence `do_action`), which requires
hand membership for a Build. -/
theorem C10_options_ignore_hand :
    (∀ (p : Player) (h : List Card) (card : Card) (vg : VisibleGame),
      options_for_card { p with hand := h } card vg = options_for_card p card vg) ∧
    (∀ (p : Player) (card : Card) (borrowing : Borrowing) (vg : VisibleGame),
      can_play p (Action.Build card borrowing) vg = true → card ∈ p.hand) ∧
    (options_for_card (demo_player []) Card.LumberYard (demo_visible_game [] [])).actions =
      [Action.Build Card.LumberYard Borrowing.no_borrowing] ∧
    Card.LumberYard ∉ (demo_player []).hand ∧
    can_play (demo_player []) (Action.Build Card.LumberYard Borrowing.no_borrowing)
      (demo_visible_game [] []) = false := by
  refine ⟨?_, ?_, by decide, by decide, by decide⟩
  · intro p h card vg
    rfl
  · intro p card borrowing vg hcp
    by_contra hmem
    rw [can_play] at hcp
    rw [can_play_card, if_neg hmem] at hcp
    exact Bool.false_ne_true hcp

theorem C10_options_ignore_hand_witness :
    Card.LumberYard ∈ (demo_player [Card.LumberYard]).hand :=
  C10_options_ignore_hand.2.1 (demo_player [Card.LumberYard]) Card.LumberYard
    Borrowing.no_borrowing (demo_visible_game [] []) (by decide)

theorem swap_remove_perm [Inhabited α] (l : List α) (i : Nat) (h : i < l.length) :
    (swap_remove l i).Perm (l.eraseIdx i) := by
  have hlne : l ≠ [] := by
    intro hnil
    rw [hnil] at h
    simp at h
  have hx : l.getLast?.getD default = l.getLast hlne := by
    rw [List.getLast?_eq_getLast l hlne]
    rfl
  rw [swap_remove, hx, List.set_eq_take_append_cons_drop, if_pos h,
    List.eraseIdx_eq_take_drop_succ]
  by_cases hlast : i + 1 < l.length
  · have hdne : l.drop (i + 1) ≠ [] := by
      intro hnil
      have := List.drop_eq_nil_iff.mp hnil
      omega
    have hdecomp : l.drop (i + 1) = (l.drop (i + 1)).dropLast ++ [(l.drop (i + 1)).getLast hdne] :=
      (List.dropLast_append_getLast hdne).symm
    have hlasteq : (l.drop (i + 1)).getLast hdne = l.getLast hlne := by
      rw [List.getLast_eq_getElem, List.getLast_eq_getElem, List.getElem_drop]
      congr 1
      simp
      omega
    rw [List.dropLast_append_cons]
    conv_lhs => rw [hdecomp]
    rw [hlasteq, ← List.cons_append, List.dropLast_concat]
    conv_rhs => rw [hdecomp, hlasteq]
    exact (List.perm_append_singleton _ _).symm.append_left _
  · have hieq : i = l.length - 1 := by omega
    have hdnil : l.drop (i + 1) = [] := by
      rw [List.drop_eq_nil_iff]
      omega
    rw [hdnil]
    simp only [List.dropLast_concat]
    simp

theorem eraseIdx_coe_multiset [DecidableEq α] (l : List α) (i : Nat) (h : i < l.length) :
    ((l.eraseIdx i : List α) : Multiset α) = (l : Multiset α) - {l[i]} := by
  have hperm : l.Perm (l[i] :: l.eraseIdx i) := by
    rw [List.eraseIdx_eq_take_drop_succ]
    conv_lhs => rw [← List.take_append_drop i l, List.drop_eq_getElem_cons h]
    exact List.perm_middle
  have hcoe : (l : Multiset α) = l[i] ::ₘ ↑(l.eraseIdx i) := by
    rw [Multiset.coe_eq_coe.mpr hperm]
    rfl
  rw [hcoe, ← Multiset.singleton_add, add_tsub_cancel_left]

theorem remove_from_hand_multiset (hand : List Card) (card : Card) (h : card ∈ hand) :
    ((remove_from_hand hand card : List Card) : Multiset Card) =
      (hand : Multiset Card) - {card} := by
  have hex : ∃ c ∈ hand, (fun c => decide (c = card)) c = true := ⟨card, h, by simp⟩
  have hlt : hand.findIdx (fun c => decide (c = card)) < hand.length :=
    List.findIdx_lt_length_of_exists hex
  have hfind : hand.findIdx? (fun c => decide (c = card)) =
      some (hand.findIdx (fun c => decide (c = card))) := by
    rw [List.findIdx?_eq_some_iff_findIdx_eq]
    exact ⟨hlt, rfl⟩
  have hval : hand[hand.findIdx (fun c => decide (c = card))] = card := by
    have := @List.findIdx_getElem _ (fun c => decide (c = card)) hand hlt
    simpa using this
  simp only [remove_from_hand, hfind]
  rw [Multiset.coe_eq_coe.mpr (swap_remove_perm hand _ hlt),
    eraseIdx_coe_multiset hand _ hlt, hval]

theorem can_play_build_mem_hand {p : Player} {card : Card} {borrowing : Borrowing}
    {vg : VisibleGame} (h : can_play p (Action.Build card borrowing) vg = true) :
    card ∈ p.hand := by
  by_contra hmem
  rw [can_play, can_play_card, if_neg hmem] at h
  exact Bool.false_ne_true h

theorem do_action_build_eq (p : Player) (card : Card) (borrowing : Borrowing)
    (vg : VisibleGame) (lp rp : Player) (discard : List Card)
    (h : can_play p (Action.Build card borrowing) vg = true) :
    do_action p (Action.Build card borrowing) vg lp rp discard =
      { ok := true
        player :=
          { p with
            hand := remove_from_hand p.hand card
            built_structures := p.built_structures ++ [card]
            coins := p.coins - (card.cost).coins -
              ((borrowing.left.length : Int) * 2 + (borrowing.right.length : Int) * 2) }
        left_player := lp.add_coins ((borrowing.left.length : Int) * 2)
        right_player := rp.add_coins ((borrowing.right.length : Int) * 2)
        discard_pile := discard } := by
  simp only [do_action, h, if_true]

theorem do_action_discard_eq (p : Player) (card : Card) (vg : VisibleGame)
    (lp rp : Player) (discard : List Card)
    (h : can_play p (Action.Discard card) vg = true) :
    do_action p (Action.Discard card) vg lp rp discard =
      { ok := true
        player := { p with hand := remove_from_hand p.hand card, coins := p.coins + 3 }
        left_player := lp
        right_player := rp
        discard_pile := discard ++ [card] } := by
  simp only [do_action, h, if_true]

theorem do_action_fail_eq (p : Player) (a : Action) (vg : VisibleGame)
    (lp rp : Player) (discard : List Card) (h : can_play p a vg = false) :
    do_action p a vg lp rp discard =
      { ok := false, player := p, left_player := lp, right_player := rp,
        discard_pile := discard } := by
  simp only [do_action, h, Bool.false_eq_true, if_false]

/-- Claim C3: applying a legal Build with `n = left + right` borrows via
`do_action` debits the acting player exactly `2 * n` coins plus the
card's own coin cost, credits the live left neighbour (the mutable
`left_player` argument, not the snapshot inside `vg`) exactly
`2 * left.length` coins, and the live right neighbour exactly
`2 * right.length`. -/
theorem C3_borrow_coin_transfers (p : Player) (card : Card) (borrowing : Borrowing)
    (vg : VisibleGame) (lp rp : Player) (discard : List Card)
    (h : can_play p (Action.Build card borrowing) vg = true) :
    (do_action p (Action.Build card borrowing) vg lp rp discard).ok = true ∧
    (do_action p (Action.Build card borrowing) vg lp rp discard).player.coins =
      p.coins - (card.cost).coins -
        2 * ((borrowing.left.length : Int) + (borrowing.right.length : Int)) ∧
    (do_action p (Action.Build card borrowing) vg lp rp discard).left_player =
      lp.add_coins (2 * (borrowing.left.length : Int)) ∧
    (do_action p (Action.Build card borrowing) vg lp rp discard).right_player =
      rp.add_coins (2 * (borrowing.right.length : Int)) ∧
    (do_action p (Action.Build card borrowing) vg lp rp discard).left_player.coins =
      lp.coins + 2 * (borrowing.left.length : Int) ∧
    (do_action p (Action.Build card borrowing) vg lp rp discard).right_player.coins =
      rp.coins + 2 * (borrowing.right.length : Int) := by
  rw [do_action_build_eq p card borrowing vg lp rp discard h]
  refine ⟨rfl, by ring, by rw [mul_comm 2 ((borrowing.left.length : Int))],
    by rw [mul_comm 2 ((borrowing.right.length : Int))], ?_, ?_⟩
  · show lp.coins + (borrowing.left.length : Int) * 2 = lp.coins + 2 * (borrowing.left.length : Int)
    ring
  · show rp.coins + (borrowing.right.length : Int) * 2 = rp.coins + 2 * (borrowing.right.length : Int)
    ring

theorem C3_borrow_coin_transfers_witness :
    (do_action (demo_player [Card.Stockade])
        (Action.Build Card.Stockade
          (Borrowing.mk [Borrow.mk Card.LumberYard Resource.Wood] []))
        (demo_visible_game [Card.LumberYard] []) (demo_player []) (demo_player [])
        []).player.coins =
      (demo_player [Card.Stockade]).coins - (Card.Stockade.cost).coins -
        2 * ((1 : Int) + (0 : Int)) ∧
    (do_action (demo_player [Card.Stockade])
        (Action.Build Card.Stockade
          (Borrowing.mk [Borrow.mk Card.LumberYard Resource.Wood] []))
        (demo_visible_game [Card.LumberYard] []) (demo_player []) (demo_player [])
        []).left_player.coins = (demo_player []).coins + 2 * (1 : Int) := by
  have hthm := C3_borrow_coin_transfers (demo_player [Card.Stockade]) Card.Stockade
    (Borrowing.mk [Borrow.mk Card.LumberYard Resource.Wood] [])
    (demo_visible_game [Card.LumberYard] []) (demo_player []) (demo_player []) []
    (by decide)
  exact ⟨hthm.2.1, hthm.2.2.2.2.1⟩

theorem do_action?_wonder (p : Player) (card : Card) (borrowing : Borrowing)
    (vg : VisibleGame) (lp rp : Player) (discard : List Card) :
    do_action? p (Action.Wonder card borrowing) vg lp rp discard = none := rfl

theorem do_action?_build (p : Player) (card : Card) (borrowing : Borrowing)
    (vg : VisibleGame) (lp rp : Player) (discard : List Card) :
    do_action? p (Action.Build card borrowing) vg lp rp discard =
      some (do_action p (Action.Build card borrowing) vg lp rp discard) := by
  unfold do_action? do_action can_play? can_play
  by_cases h : can_play_card p card borrowing vg = true
  · simp [h]
  · simp [h]

theorem do_action?_discard (p : Player) (card : Card) (vg : VisibleGame)
    (lp rp : Player) (discard : List Card) :
    do_action? p (Action.Discard card) vg lp rp discard =
      some (do_action p (Action.Discard card) vg lp rp discard) := by
  unfold do_action? do_action can_play? can_play
  by_cases h : decide (card ∈ p.hand) = true
  · simp [h]
  · simp [h]

/-- Claim C8, counterexample to the universal form: on a `Wonder` action
the source hits `todo!()` inside `can_play` and panics before returning
(`do_action`'s own `Wonder` arm is `todo!()` as well), so `do_action`
neither "fully applies the action and returns true" nor "returns false
and leaves everything unchanged" — it does not return at all. In the
honest embedding `do_action?` this concrete input yields `none`. -/
theorem C8_counterexample :
    do_action? (demo_player [Card.Baths]) (Action.Wonder Card.Baths Borrowing.no_borrowing)
      (demo_visible_game [] []) (demo_player []) (demo_player []) [] = none := rfl

/-- Claim C8 (amended): the source's `Action::Wonder` arm is `todo!()` —
a panic raised inside `can_play` before any mutation — so `do_action`
returns at all exactly when the action is not a Wonder action
(`do_action?` is `none` precisely on Wonder actions). Whenever it does
return a result, that result is all-or-nothing: on `false` the acting
player, both live neighbours and the discard pile are unchanged; on
`true` the Build or Discard was fully applied — the card leaves the hand
(one copy, as a multiset), enters the built structures or the discard
pile, and all coin debits and neighbour credits occur. -/
theorem C8_do_action_all_or_nothing (p : Player) (a : Action) (vg : VisibleGame)
    (lp rp : Player) (discard : List Card) :
    (do_action? p a vg lp rp discard = none ↔
      ∃ card borrowing, a = Action.Wonder card borrowing) ∧
    ∀ res, do_action? p a vg lp rp discard = some res →
      (res.ok = false →
        res.player = p ∧ res.left_player = lp ∧ res.right_player = rp ∧
          res.discard_pile = discard) ∧
      (res.ok = true →
        match a with
        | Action.Build card borrowing =>
            card ∈ p.hand ∧
            (res.player.hand : Multiset Card) = (p.hand : Multiset Card) - {card} ∧
            res.player.built_structures = p.built_structures ++ [card] ∧
            res.player.coins =
              p.coins - (card.cost).coins -
                2 * ((borrowing.left.length : Int) + (borrowing.right.length : Int)) ∧
            res.left_player = lp.add_coins (2 * (borrowing.left.length : Int)) ∧
            res.right_player = rp.add_coins (2 * (borrowing.right.length : Int)) ∧
            res.discard_pile = discard
        | Action.Wonder _ _ => False
        | Action.Discard card =>
            card ∈ p.hand ∧
            (res.player.hand : Multiset Card) = (p.hand : Multiset Card) - {card} ∧
            res.player.built_structures = p.built_structures ∧
            res.player.coins = p.coins + 3 ∧
            res.left_player = lp ∧
            res.right_player = rp ∧
            res.discard_pile = discard ++ [card]) := by
  constructor
  · cases a with
    | Build card borrowing =>
        rw [do_action?_build]
        simp
    | Wonder card borrowing =>
        exact ⟨fun _ => ⟨card, borrowing, rfl⟩, fun _ => rfl⟩
    | Discard card =>
        rw [do_action?_discard]
        simp
  · intro res hres
    cases a with
    | Wonder card borrowing =>
        rw [do_action?_wonder] at hres
        exact absurd hres (by simp)
    | Build card borrowing =>
        rw [do_action?_build] at hres
        injection hres with hres
        subst hres
        by_cases hcp : can_play p (Action.Build card borrowing) vg = true
        · rw [do_action_build_eq p card borrowing vg lp rp discard hcp]
          constructor
          · intro hok
            exact absurd hok (by simp)
          · intro _
            have hmem : card ∈ p.hand := can_play_build_mem_hand hcp
            exact ⟨hmem, remove_from_hand_multiset p.hand card hmem, rfl, by ring,
              by rw [mul_comm 2 ((borrowing.left.length : Int))],
              by rw [mul_comm 2 ((borrowing.right.length : Int))], rfl⟩
        · rw [do_action_fail_eq p (Action.Build card borrowing) vg lp rp discard
            (by simpa using hcp)]
          constructor
          · intro _
            exact ⟨rfl, rfl, rfl, rfl⟩
          · intro hok
            exact absurd hok (by simp)
    | Discard card =>
        rw [do_action?_discard] at hres
        injection hres with hres
        subst hres
        by_cases hcp : can_play p (Action.Discard card) vg = true
        · rw [do_action_discard_eq p card vg lp rp discard hcp]
          constructor
          · intro hok
            exact absurd hok (by simp)
          · intro _
            have hmem : card ∈ p.hand := by
              rw [can_play, decide_eq_true_eq] at hcp
              exact hcp
            exact ⟨hmem, remove_from_hand_multiset p.hand card hmem, rfl, rfl, rfl,
              rfl, rfl⟩
        · rw [do_action_fail_eq p (Action.Discard card) vg lp rp discard
            (by simpa using hcp)]
          constructor
          · intro _
            exact ⟨rfl, rfl, rfl, rfl⟩
          · intro hok
            exact absurd hok (by simp)

/-- Concrete instance of the amended claim C8: discarding `LumberYard`
from a one-card hand removes exactly that copy from the hand and appends
it to the discard pile. -/
theorem C8_do_action_all_or_nothing_witness :
    ((do_action (demo_player [Card.LumberYard]) (Action.Discard Card.LumberYard)
        (demo_visible_game [] []) (demo_player []) (demo_player []) []).player.hand :
          Multiset Card) =
      ((demo_player [Card.LumberYard]).hand : Multiset Card) - {Card.LumberYard} ∧
    (do_action (demo_player [Card.LumberYard]) (Action.Discard Card.LumberYard)
        (demo_visible_game [] []) (demo_player []) (demo_player []) []).discard_pile =
      [] ++ [Card.LumberYard] := by
  have hthm := ((C8_do_action_all_or_nothing (demo_player [Card.LumberYard])
      (Action.Discard Card.LumberYard) (demo_visible_game [] []) (demo_player [])
      (demo_player []) []).2
    (do_action (demo_player [Card.LumberYard]) (Action.Discard Card.LumberYard)
      (demo_visible_game [] []) (demo_player []) (demo_player []) [])
    (do_action?_discard (demo_player [Card.LumberYard]) Card.LumberYard
      (demo_visible_game [] []) (demo_player []) (demo_player []) [])).2 (by decide)
  exact ⟨hthm.2.1, hthm.2.2.2.2.2.2⟩

theorem evaluate_green_eq_science_score (cards : List Card) :
    evaluate_green cards =
      science_score (count_science_items cards).compass (count_science_items cards).cog
        (count_science_items cards).tablet := rfl

theorem filter_colour_mem {cards : List Card} {col : Colour} {x : Card}
    (hx : x ∈ cards.filter (fun s => decide (s.colour = col))) : x.colour = col := by
  have := List.of_mem_filter hx
  simpa using this

theorem evaluate_colour_not_green (group : List Card) (col : Colour)
    (hall : ∀ x ∈ group, x.colour = col) (hcol : col ≠ Colour.Green) :
    evaluate_colour group = (group.map Card.immediate_strength).sum := by
  cases group with
  | nil => rfl
  | cons x xs =>
      have hx : x.colour = col := hall x (List.mem_cons_self _ _)
      rw [evaluate_colour]
      simp only [List.head?_cons]
      rw [hx]
      cases col with
      | Green => exact absurd rfl hcol
      | Brown => rfl
      | Grey => rfl
      | Blue => rfl
      | Yellow => rfl
      | Red => rfl
      | Purple => rfl

theorem evaluate_colour_green (group : List Card)
    (hall : ∀ x ∈ group, x.colour = Colour.Green) :
    evaluate_colour group = evaluate_green group := by
  cases group with
  | nil => rfl
  | cons x xs =>
      have hx : x.colour = Colour.Green := hall x (List.mem_cons_self _ _)
      rw [evaluate_colour]
      simp only [List.head?_cons]
      rw [hx]

theorem colour_term_not_green (cards : List Card) (col : Colour) (hcol : col ≠ Colour.Green) :
    (if (cards.filter (fun s => decide (s.colour = col))).isEmpty then 0
     else evaluate_colour (cards.filter (fun s => decide (s.colour = col)))) =
      ((cards.filter (fun s => decide (s.colour = col))).map Card.immediate_strength).sum := by
  by_cases hemp : (cards.filter (fun s => decide (s.colour = col))).isEmpty
  · rw [if_pos hemp]
    rw [List.isEmpty_iff] at hemp
    rw [hemp]
    rfl
  · rw [if_neg hemp]
    exact evaluate_colour_not_green _ col (fun x hx => filter_colour_mem hx) hcol

theorem colour_term_green (cards : List Card) :
    (if (cards.filter (fun s => decide (s.colour = Colour.Green))).isEmpty then 0
     else evaluate_colour (cards.filter (fun s => decide (s.colour = Colour.Green)))) =
      evaluate_green (cards.filter (fun s => decide (s.colour = Colour.Green))) := by
  by_cases hemp : (cards.filter (fun s => decide (s.colour = Colour.Green))).isEmpty
  · rw [if_pos hemp]
    rw [List.isEmpty_iff] at hemp
    rw [hemp]
    rfl
  · rw [if_neg hemp]
    exact evaluate_colour_green _ (fun x hx => filter_colour_mem hx)

theorem nonGreen_partition (cards : List Card) :
    ((cards.filter (fun s => decide (s.colour = Colour.Brown))).map Card.immediate_strength).sum +
    ((cards.filter (fun s => decide (s.colour = Colour.Grey))).map Card.immediate_strength).sum +
    ((cards.filter (fun s => decide (s.colour = Colour.Blue))).map Card.immediate_strength).sum +
    ((cards.filter (fun s => decide (s.colour = Colour.Yellow))).map Card.immediate_strength).sum +
    ((cards.filter (fun s => decide (s.colour = Colour.Red))).map Card.immediate_strength).sum +
    ((cards.filter (fun s => decide (s.colour = Colour.Purple))).map Card.immediate_strength).sum =
    ((cards.filter (fun s => decide (s.colour ≠ Colour.Green))).map Card.immediate_strength).sum := by
  induction cards with
  | nil => rfl
  | cons x xs ih =>
      simp only [ne_eq, decide_not] at ih ⊢
      cases hx : x.colour <;> simp [List.filter_cons, hx] <;> omega

/-- Claim C7: `strength_internal` partitions the built structures by
colour and sums per-colour scores, where every non-green colour
contributes the sum of its cards' immediate point values (resource and
commerce cards contributing zero) and the green colour contributes
7 times the minimum of the three science-symbol counts plus the sum of
the squares of the positive counts; in particular a board with symbol
counts Compass 1, Cog 1, Tablet 1 scores 10 and one with Compass 2,
Cog 0, Tablet 0 scores 4. -/
theorem C7_strength_formula :
    (∀ cards : List Card, strength_internal cards = spec_strength cards) ∧
    strength_internal [Card.Apothecary, Card.Workshop, Card.Scriptorium] = 10 ∧
    strength_internal [Card.Apothecary, Card.Lodge] = 4 := by
  refine ⟨?_, by decide, by decide⟩
  intro cards
  rw [strength_internal, colour_list]
  simp only [List.map_cons, List.map_nil, List.sum_cons, List.sum_nil]
  rw [colour_term_not_green cards Colour.Brown (by simp),
    colour_term_not_green cards Colour.Grey (by simp),
    colour_term_not_green cards Colour.Blue (by simp),
    colour_term_not_green cards Colour.Yellow (by simp),
    colour_term_not_green cards Colour.Red (by simp),
    colour_term_not_green cards Colour.Purple (by simp),
    colour_term_green cards]
  rw [spec_strength]
  rw [← nonGreen_partition cards, evaluate_green_eq_science_score]
  ring

theorem C7_strength_formula_witness :
    strength_internal [Card.StonePit, Card.Quarry, Card.Aqueduct, Card.Loom1, Card.Apothecary] =
      spec_strength [Card.StonePit, Card.Quarry, Card.Aqueduct, Card.Loom1, Card.Apothecary] :=
  C7_strength_formula.1 [Card.StonePit, Card.Quarry, Card.Aqueduct, Card.Loom1, Card.Apothecary]

/-- Claim C9: for every seat count between 3 and 7 and every valid index,
the three-way mutable seat accessor returns `(right, self, left)` with
self at index `i`, the left neighbour at `(i + 1) % n` and the right
neighbour at `(i + n - 1) % n` — the two formulas `VisibleGame` exposes
as `right_neighbour_index` and `left_neighbour_index` — with both
wrap-around cases handled and the three indices pairwise distinct, so
the same seat is never aliased twice. -/
theorem C9_neighbour_accessor (players : List α) (d : α) (i : Nat)
    (h3 : 3 ≤ players.length) (h7 : players.length ≤ 7) (hi : i < players.length) :
    get_mutable_player_and_neighbours players i =
      some (players.getD ((i + players.length - 1) % players.length) d,
            players.getD i d,
            players.getD ((i + 1) % players.length) d) ∧
    (i + players.length - 1) % players.length ≠ i ∧
    (i + 1) % players.length ≠ i ∧
    (i + players.length - 1) % players.length ≠ (i + 1) % players.length ∧
    (∀ vg : VisibleGame, vg.public_players.length = players.length → vg.player_index = i →
      vg.right_neighbour_index = (i + players.length - 1) % players.length ∧
      vg.left_neighbour_index = (i + 1) % players.length) := by
  have hvg : ∀ vg : VisibleGame, vg.public_players.length = players.length →
      vg.player_index = i →
      vg.right_neighbour_index = (i + players.length - 1) % players.length ∧
      vg.left_neighbour_index = (i + 1) % players.length := by
    intro vg h1 h2
    rw [VisibleGame.right_neighbour_index, VisibleGame.left_neighbour_index, h1, h2]
    exact ⟨rfl, rfl⟩
  rcases players with _ | ⟨a, _ | ⟨b, _ | ⟨c, _ | ⟨e4, _ | ⟨e5, _ | ⟨e6, _ | ⟨e7, _ |
    ⟨e8, rest⟩⟩⟩⟩⟩⟩⟩⟩
  · simp at h3
  · simp at h3
  · simp at h3
  · simp only [List.length_cons, List.length_nil] at hi
    interval_cases i <;>
      exact ⟨by norm_num; try rfl, by norm_num, by norm_num, by norm_num, hvg⟩
  · simp only [List.length_cons, List.length_nil] at hi
    interval_cases i <;>
      exact ⟨by norm_num; try rfl, by norm_num, by norm_num, by norm_num, hvg⟩
  · simp only [List.length_cons, List.length_nil] at hi
    interval_cases i <;>
      exact ⟨by norm_num; try rfl, by norm_num, by norm_num, by norm_num, hvg⟩
  · simp only [List.length_cons, List.length_nil] at hi
    interval_cases i <;>
      exact ⟨by norm_num; try rfl, by norm_num, by norm_num, by norm_num, hvg⟩
  · simp only [List.length_cons, List.length_nil] at hi
    interval_cases i <;>
      exact ⟨by norm_num; try rfl, by norm_num, by norm_num, by norm_num, hvg⟩
  · simp only [List.length_cons] at h7
    omega

theorem C9_neighbour_accessor_witness :
    get_mutable_player_and_neighbours [10, 20, 30, 40] 0 =
      some ((([10, 20, 30, 40] : List Nat).getD ((0 + 4 - 1) % 4) 0),
            (([10, 20, 30, 40] : List Nat).getD 0 0),
            (([10, 20, 30, 40] : List Nat).getD ((0 + 1) % 4) 0)) :=
  (C9_neighbour_accessor [10, 20, 30, 40] 0 0 (by decide) (by decide) (by decide)).1

/-- Claim C6: the hand-rotation step is a single circular pass — in ages
1 and 3 (the clockwise direction) it equals rotating the seat-indexed
hand list by `n - 1`, and in age 2 (`game_age` = Second, anticlockwise)
by 1 — so the multiset of all cards across all hands is preserved (no
hand lost or duplicated), each seat's new hand is exactly the prior hand
of the adjacent seat in the rotation direction, and that prior hand
already lacks exactly the one card its holder built or discarded that
round (a successful `do_action` removes exactly one copy of the played
card from the hand). -/
theorem C6_hand_rotation (hands : List (List Card)) (h3 : 3 ≤ hands.length)
    (h7 : hands.length ≤ 7) :
    pass_hands hands false = hands.rotate (hands.length - 1) ∧
    pass_hands hands true = hands.rotate 1 ∧
    (∀ second : Bool, ((pass_hands hands second).flatten).Perm hands.flatten) ∧
    (∀ i, i < hands.length →
      (pass_hands hands false).getD i [] =
        hands.getD ((i + hands.length - 1) % hands.length) [] ∧
      (pass_hands hands true).getD i [] = hands.getD ((i + 1) % hands.length) []) ∧
    (∀ t : Nat, t ≤ 17 → (game_age t = some Age.Second ↔ 6 ≤ t ∧ t ≤ 11)) ∧
    (∀ (p : Player) (card : Card) (borrowing : Borrowing) (vg : VisibleGame)
        (lp rp : Player) (dp : List Card),
      ((do_action p (Action.Build card borrowing) vg lp rp dp).ok = true →
        card ∈ p.hand ∧
        ((do_action p (Action.Build card borrowing) vg lp rp dp).player.hand :
          Multiset Card) = (p.hand : Multiset Card) - {card}) ∧
      ((do_action p (Action.Discard card) vg lp rp dp).ok = true →
        card ∈ p.hand ∧
        ((do_action p (Action.Discard card) vg lp rp dp).player.hand :
          Multiset Card) = (p.hand : Multiset Card) - {card})) := by
  have h12 : pass_hands hands false = hands.rotate (hands.length - 1) ∧
      pass_hands hands true = hands.rotate 1 := by
    rcases hands with _ | ⟨a, _ | ⟨b, _ | ⟨c, _ | ⟨e4, _ | ⟨e5, _ | ⟨e6, _ | ⟨e7, _ |
      ⟨e8, rest⟩⟩⟩⟩⟩⟩⟩⟩
    · simp at h3
    · simp at h3
    · simp at h3
    · constructor <;> (simp only [pass_hands, rotate_step, List.length_cons,
        List.length_nil]; norm_num; try rfl)
    · constructor <;> (simp only [pass_hands, rotate_step, List.length_cons,
        List.length_nil]; norm_num; try rfl)
    · constructor <;> (simp only [pass_hands, rotate_step, List.length_cons,
        List.length_nil]; norm_num; try rfl)
    · constructor <;> (simp only [pass_hands, rotate_step, List.length_cons,
        List.length_nil]; norm_num; try rfl)
    · constructor <;> (simp only [pass_hands, rotate_step, List.length_cons,
        List.length_nil]; norm_num; try rfl)
    · simp only [List.length_cons] at h7
      omega
  have hnpos : 0 < hands.length := by omega
  have hget : ∀ (k i : Nat), i < hands.length →
      (hands.rotate k).getD i [] = hands.getD ((i + k) % hands.length) [] := by
    intro k i hi
    have hlen : (hands.rotate k).length = hands.length := List.length_rotate hands k
    rw [List.getD_eq_getElem _ _ (by rw [hlen]; exact hi),
      List.getD_eq_getElem _ _ (Nat.mod_lt _ hnpos)]
    exact List.getElem_rotate hands k i (by rw [hlen]; exact hi)
  refine ⟨h12.1, h12.2, ?_, ?_, ?_, ?_⟩
  · intro second
    cases second
    · rw [h12.1]
      exact (List.rotate_perm hands (hands.length - 1)).flatten
    · rw [h12.2]
      exact (List.rotate_perm hands 1).flatten
  · intro i hi
    constructor
    · rw [h12.1, hget (hands.length - 1) i hi]
      congr 2
      omega
    · rw [h12.2, hget 1 i hi]
  · intro t ht
    by_cases h5 : t ≤ 5
    · rw [game_age, if_pos h5]
      simp
      omega
    · by_cases h11 : t ≤ 11
      · rw [game_age, if_neg h5, if_pos h11]
        simp
        omega
      · rw [game_age, if_neg h5, if_neg h11, if_pos (by omega : t ≤ 17)]
        simp
        omega
  · intro p card borrowing vg lp rp dp
    constructor
    · intro hok
      by_cases hcp : can_play p (Action.Build card borrowing) vg = true
      · have hmem := can_play_build_mem_hand hcp
        rw [do_action_build_eq p card borrowing vg lp rp dp hcp]
        exact ⟨hmem, remove_from_hand_multiset p.hand card hmem⟩
      · rw [do_action_fail_eq p _ vg lp rp dp (by simpa using hcp)] at hok
        exact absurd hok (by simp)
    · intro hok
      by_cases hcp : can_play p (Action.Discard card) vg = true
      · have hmem : card ∈ p.hand := by
          rw [can_play, decide_eq_true_eq] at hcp
          exact hcp
        rw [do_action_discard_eq p card vg lp rp dp hcp]
        exact ⟨hmem, remove_from_hand_multiset p.hand card hmem⟩
      · rw [do_action_fail_eq p _ vg lp rp dp (by simpa using hcp)] at hok
        exact absurd hok (by simp)

theorem C6_hand_rotation_witness :
    pass_hands [[Card.Altar], [Card.Baths], [Card.Tavern]] false =
      [[Card.Altar], [Card.Baths], [Card.Tavern]].rotate
        ([[Card.Altar], [Card.Baths], [Card.Tavern]].length - 1) ∧
    pass_hands [[Card.Altar], [Card.Baths], [Card.Tavern]] true =
      [[Card.Altar], [Card.Baths], [Card.Tavern]].rotate 1 :=
  ⟨(C6_hand_rotation [[Card.Altar], [Card.Baths], [Card.Tavern]] (by decide) (by decide)).1,
   (C6_hand_rotation [[Card.Altar], [Card.Baths], [Card.Tavern]] (by decide) (by decide)).2.1⟩

theorem eraseIdx_cons_perm (l : List α) (i : Nat) (h : i < l.length) :
    l.Perm (l[i] :: l.eraseIdx i) := by
  rw [List.eraseIdx_eq_take_drop_succ]
  conv_lhs => rw [← List.take_append_drop i l, List.drop_eq_getElem_cons h]
  exact List.perm_middle

theorem countP_eraseIdx (l : List α) (p : α → Bool) (i : Nat) (h : i < l.length) :
    (l.eraseIdx i).countP p = l.countP p - (if p l[i] then 1 else 0) := by
  have hperm := (eraseIdx_cons_perm l i h).countP_eq p
  rw [List.countP_cons] at hperm
  by_cases hp : p l[i] = true <;> simp [hp] at hperm ⊢ <;> omega

theorem count_card_entries_perm {es es2 : List UsableResources} (h : es.Perm es2) (x : Card) :
    count_card_entries es x = count_card_entries es2 x := by
  rw [count_card_entries, count_card_entries, ← List.countP_eq_length_filter,
    ← List.countP_eq_length_filter]
  exact h.countP_eq _

theorem count_card_entries_eraseIdx (es : List UsableResources) (i : Nat)
    (h : i < es.length) (x : Card) :
    count_card_entries (es.eraseIdx i) x =
      count_card_entries es x - (if es[i].card = x then 1 else 0) := by
  rw [count_card_entries, count_card_entries, ← List.countP_eq_length_filter,
    ← List.countP_eq_length_filter, countP_eraseIdx es _ i h]
  by_cases hc : es[i].card = x <;> simp [hc]

theorem count_card_borrows_cons (b : Borrow) (bs : List Borrow) (x : Card) :
    count_card_borrows (b :: bs) x =
      count_card_borrows bs x + (if b.card = x then 1 else 0) := by
  rw [count_card_borrows, count_card_borrows, List.filter_cons]
  by_cases hc : b.card = x <;> simp [hc]

theorem count_card_borrows_pos {bs : List Borrow} {x : Card}
    (h : 0 < count_card_borrows bs x) : ∃ b ∈ bs, b.card = x := by
  rw [count_card_borrows] at h
  rcases hf : bs.filter (fun b => decide (b.card = x)) with _ | ⟨b, rest⟩
  · rw [hf] at h
    simp at h
  · have hb : b ∈ bs.filter (fun b => decide (b.card = x)) := by
      rw [hf]
      exact List.mem_cons_self _ _
    exact ⟨b, List.mem_of_mem_filter hb, by simpa using List.of_mem_filter hb⟩

theorem count_card_entries_pos_of_mem {es : List UsableResources} {e : UsableResources}
    (he : e ∈ es) : 0 < count_card_entries es e.card := by
  rw [count_card_entries]
  have : e ∈ es.filter (fun u => decide (u.card = e.card)) :=
    List.mem_filter.mpr ⟨he, by simp⟩
  exact List.length_pos.mpr (List.ne_nil_of_mem this)

theorem count_card_entries_pos {es : List UsableResources} {x : Card}
    (h : 0 < count_card_entries es x) : ∃ e ∈ es, e.card = x := by
  rw [count_card_entries] at h
  rcases hf : es.filter (fun e => decide (e.card = x)) with _ | ⟨e, rest⟩
  · rw [hf] at h
    simp at h
  · have he : e ∈ es.filter (fun e => decide (e.card = x)) := by
      rw [hf]
      exact List.mem_cons_self _ _
    exact ⟨e, List.mem_of_mem_filter he, by simpa using List.of_mem_filter he⟩

theorem swap_remove_mem [Inhabited α] {l : List α} {i : Nat} (h : i < l.length)
    {x : α} (hx : x ∈ swap_remove l i) : x ∈ l := by
  have := (swap_remove_perm l i h).mem_iff.mp hx
  rw [List.eraseIdx_eq_take_drop_succ] at this
  rcases List.mem_append.mp this with h1 | h1
  · exact List.mem_of_mem_take h1
  · exact List.mem_of_mem_drop h1

theorem findIdx?_some_pred {p : α → Bool} {l : List α} {i : Nat}
    (h : l.findIdx? p = some i) :
    ∃ hh : i < l.length, p (l.get ⟨i, hh⟩) = true := by
  obtain ⟨hlt, hidx⟩ := List.findIdx?_eq_some_iff_findIdx_eq.mp h
  subst hidx
  refine ⟨hlt, ?_⟩
  have := @List.findIdx_getElem _ p l hlt
  simpa [List.get_eq_getElem] using this

theorem findIdx?_some_of_exists {p : α → Bool} {l : List α} (h : ∃ x ∈ l, p x = true) :
    ∃ i, l.findIdx? p = some i := by
  rcases hf : l.findIdx? p with _ | i
  · rw [List.findIdx?_eq_none_iff] at hf
    obtain ⟨x, hx, hpx⟩ := h
    rw [hf x hx] at hpx
    exact absurd hpx (by simp)
  · exact ⟨i, rfl⟩

theorem check_borrows_mem {borrows : List Borrow} {choices : List UsableResources}
    {cost cost2 : Cost} (h : check_borrows borrows choices cost = some cost2) :
    ∀ b ∈ borrows, ∃ e ∈ choices, e.card = b.card ∧ b.resource ∈ e.resources := by
  induction borrows generalizing choices cost with
  | nil => intro b hb; simp at hb
  | cons b0 bs ih =>
      rw [check_borrows] at h
      rcases hf : choices.findIdx?
          (fun usable => decide (usable.card = b0.card ∧ b0.resource ∈ usable.resources)) with
        _ | idx
      · rw [hf] at h
        simp at h
      · rw [hf] at h
        obtain ⟨hlt, hpred⟩ := findIdx?_some_pred hf
        rw [decide_eq_true_eq] at hpred
        intro b hb
        rcases List.mem_cons.mp hb with rfl | hbs
        · exact ⟨choices.get ⟨idx, hlt⟩, List.get_mem choices idx hlt, hpred.1, hpred.2⟩
        · obtain ⟨e, he, hec, her⟩ := ih h b hbs
          exact ⟨e, swap_remove_mem hlt he, hec, her⟩

theorem replay_borrows_split {cost cc : Cost} {bs : List Borrow}
    (h : replay_borrows cost bs = some cc) (xs : List Borrow) (b : Borrow)
    (ys : List Borrow) (hdecomp : bs = xs ++ b :: ys) :
    (pay_borrows cost xs).has b.resource = true ∧ (pay_borrows cost xs).coins ≤ -2 := by
  rw [hdecomp, replay_borrows_append] at h
  rcases h1 : replay_borrows cost xs with _ | c1
  · rw [h1] at h
    simp at h
  · rw [h1] at h
    simp only [Option.some_bind] at h
    have hc1 : c1 = pay_borrows cost xs := replay_borrows_eq_pay h1
    rw [replay_borrows] at h
    by_cases hcoins : c1.coins ≤ -2
    · rw [if_pos hcoins] at h
      by_cases hhas : c1.has b.resource = true
      · rw [if_pos hhas] at h
        rw [← hc1]
        exact ⟨hhas, hcoins⟩
      · rw [if_neg hhas] at h
        simp at h
    · rw [if_neg hcoins] at h
      simp at h

theorem check_borrows_of_matchable (borrows : List Borrow) (entries : List UsableResources)
    (cost : Cost)
    (hcount : ∀ x : Card, count_card_borrows borrows x ≤ count_card_entries entries x)
    (hcompat : ∀ b ∈ borrows, ∀ e ∈ entries, e.card = b.card → b.resource ∈ e.resources) :
    check_borrows borrows entries cost = some (pay_borrows cost borrows) := by
  induction borrows generalizing entries cost with
  | nil => rfl
  | cons b bs ih =>
      have hpos : 0 < count_card_entries entries b.card := by
        have := hcount b.card
        rw [count_card_borrows_cons] at this
        simp at this
        omega
      obtain ⟨e0, he0, he0c⟩ := count_card_entries_pos hpos
      have hex : ∃ u ∈ entries,
          (fun usable => decide (usable.card = b.card ∧ b.resource ∈ usable.resources)) u =
            true := by
        refine ⟨e0, he0, ?_⟩
        rw [decide_eq_true_eq]
        exact ⟨he0c, hcompat b (List.mem_cons_self _ _) e0 he0 he0c⟩
      obtain ⟨idx, hidx⟩ := findIdx?_some_of_exists hex
      obtain ⟨hlt, hpred⟩ := findIdx?_some_pred hidx
      rw [decide_eq_true_eq] at hpred
      simp only [check_borrows, hidx]
      have hperm := swap_remove_perm entries idx hlt
      have hgetc : (entries.get ⟨idx, hlt⟩).card = b.card := hpred.1
      have hcount2 : ∀ x : Card,
          count_card_borrows bs x ≤ count_card_entries (swap_remove entries idx) x := by
        intro x
        rw [count_card_entries_perm hperm x,
          count_card_entries_eraseIdx entries idx hlt x]
        have hc := hcount x
        rw [count_card_borrows_cons] at hc
        have hcardix : entries[idx].card = b.card := hgetc
        by_cases hbx : b.card = x
        · rw [if_pos (hcardix.trans hbx)]
          rw [if_pos hbx] at hc
          omega
        · rw [if_neg (fun hcon => hbx (hcardix.symm.trans hcon))]
          rw [if_neg hbx] at hc
          omega
      have hcompat2 : ∀ b2 ∈ bs, ∀ e ∈ swap_remove entries idx, e.card = b2.card →
          b2.resource ∈ e.resources := by
        intro b2 hb2 e he hec
        exact hcompat b2 (List.mem_cons_of_mem _ hb2) e (swap_remove_mem hlt he) hec
      rw [ih (swap_remove entries idx) ((cost.sub b.resource).addCoins 2) hcount2 hcompat2,
        pay_borrows_cons]

theorem card_entries_length (y : Card) (cost : Cost) (src : Source) :
    (card_entries y cost src).length = entry_count y cost src := by
  unfold card_entries entry_count
  cases hp : y.power with
  | Producer pr =>
      cases src with
      | Own =>
          cases pr with
          | Single r => simp [produced_entries]
          | Double r => simp [produced_entries]
          | Choice rs =>
              by_cases hf : (rs.filter (fun r => cost.has r)).isEmpty <;>
                simp [produced_entries, hf]
      | LeftNeighbour => rfl
      | RightNeighbour => rfl
  | PurchasableProducer pr =>
      cases pr with
      | Single r =>
          cases src with
          | Own => simp [produced_entries]
          | LeftNeighbour =>
              by_cases hh : cost.has r = true <;> simp [produced_entries, hh]
          | RightNeighbour =>
              by_cases hh : cost.has r = true <;> simp [produced_entries, hh]
      | Double r =>
          cases src with
          | Own => simp [produced_entries]
          | LeftNeighbour =>
              by_cases hh : cost.has r = true <;> simp [produced_entries, hh]
          | RightNeighbour =>
              by_cases hh : cost.has r = true <;> simp [produced_entries, hh]
      | Choice rs =>
          cases src with
          | Own =>
              by_cases hf : (rs.filter (fun r => cost.has r)).isEmpty <;>
                simp [produced_entries, hf]
          | LeftNeighbour =>
              by_cases hf : (rs.filter (fun r => cost.has r)).isEmpty <;>
                simp [produced_entries, hf]
          | RightNeighbour =>
              by_cases hf : (rs.filter (fun r => cost.has r)).isEmpty <;>
                simp [produced_entries, hf]
  | VictoryPoints n => cases src <;> rfl
  | Coins n => cases src <;> rfl
  | BuyBrownAntiClockwise => cases src <;> rfl
  | BuyBrownClockwise => cases src <;> rfl
  | BuyGrey => cases src <;> rfl
  | Science items => cases src <;> rfl
  | Shields n => cases src <;> rfl
  | PerGameItemRewards => cases src <;> rfl

theorem count_card_entries_append (es1 es2 : List UsableResources) (x : Card) :
    count_card_entries (es1 ++ es2) x = count_card_entries es1 x + count_card_entries es2 x := by
  rw [count_card_entries, count_card_entries, count_card_entries, List.filter_append,
    List.length_append]

theorem count_card_entries_cons (e : UsableResources) (es : List UsableResources) (x : Card) :
    count_card_entries (e :: es) x = count_card_entries es x + (if e.card = x then 1 else 0) := by
  rw [count_card_entries, count_card_entries, List.filter_cons]
  by_cases hc : e.card = x <;> simp [hc]

theorem count_card_entries_all_eq (es : List UsableResources) (y : Card)
    (hall : ∀ e ∈ es, e.card = y) (x : Card) :
    count_card_entries es x = if y = x then es.length else 0 := by
  by_cases hyx : y = x
  · rw [if_pos hyx, count_card_entries]
    have : es.filter (fun e => decide (e.card = x)) = es :=
      List.filter_eq_self.mpr (fun e he => by simp [hall e he, hyx])
    rw [this]
  · rw [if_neg hyx, count_card_entries]
    have : es.filter (fun e => decide (e.card = x)) = [] :=
      List.filter_eq_nil_iff.mpr (fun e he => by simp [hall e he]; exact fun hc => hyx hc)
    rw [this]
    rfl

theorem count_card_entries_add_choices (cards : List Card) (cost : Cost) (src : Source)
    (x : Card) :
    count_card_entries (add_choices cards cost src) x =
      (List.count x cards) * entry_count x cost src := by
  induction cards with
  | nil => simp [add_choices, count_card_entries]
  | cons y rest ih =>
      rw [add_choices]
      rw [count_card_entries_append, ih,
        count_card_entries_all_eq (card_entries y cost src) y
          (fun e he => (card_entries_spec y cost src e he).2.1) x,
        List.count_cons]
      by_cases hyx : y = x
      · rw [if_pos hyx, hyx, card_entries_length]
        simp [hyx]
        ring
      · rw [if_neg hyx]
        have : (y == x) = false := by simpa using hyx
        rw [this]
        simp

theorem forall₂_count_card {l : List Borrow} {es : List UsableResources}
    (h : List.Forall₂
      (fun (b : Borrow) (e : UsableResources) => b.card = e.card ∧ b.resource ∈ e.resources)
      l es) (x : Card) :
    count_card_borrows l x = count_card_entries es x := by
  induction h with
  | nil => rfl
  | cons hr hrest ih =>
      rw [count_card_borrows_cons, count_card_entries_cons, ih]
      rename_i b e l2 es2
      by_cases hbx : b.card = x
      · rw [if_pos hbx, if_pos (hr.1 ▸ hbx)]
      · rw [if_neg hbx, if_neg (fun hc => hbx (hr.1.symm ▸ hc))]

theorem count_card_entries_sublist {es1 es2 : List UsableResources}
    (h : es1.Sublist es2) (x : Card) :
    count_card_entries es1 x ≤ count_card_entries es2 x :=
  (h.filter _).length_le

theorem foldl_mul_acc (f : α → Nat) (l : List α) (a : Nat) :
    l.foldl (fun acc ch => acc * f ch) a = a * l.foldl (fun acc ch => acc * f ch) 1 := by
  induction l generalizing a with
  | nil => simp
  | cons x xs ih =>
      rw [List.foldl_cons, ih (a * f x), List.foldl_cons, ih (1 * f x)]
      ring

theorem own_combination_count_cons (e : UsableResources) (rest : List UsableResources) :
    own_combination_count (e :: rest) = e.resources.length * own_combination_count rest := by
  rw [own_combination_count, List.foldl_cons,
    foldl_mul_acc (fun ch => ch.resources.length) rest (1 * e.resources.length),
    own_combination_count]
  ring

theorem own_combination_count_pos (choices : List UsableResources)
    (h : ∀ e ∈ choices, e.resources ≠ []) : 0 < own_combination_count choices := by
  induction choices with
  | nil => simp [own_combination_count]
  | cons e rest ih =>
      rw [own_combination_count_cons]
      exact Nat.mul_pos (List.length_pos.mpr (h e (List.mem_cons_self _ _)))
        (ih (fun x hx => h x (List.mem_cons_of_mem _ hx)))

theorem own_combination_matle (choices : List UsableResources) (c : Nat) (cost : Cost) :
    matle (own_combination choices c cost) cost ∧
      (own_combination choices c cost).coins = cost.coins := by
  induction choices generalizing c cost with
  | nil => exact ⟨matle_refl _, rfl⟩
  | cons e rest ih =>
      rw [own_combination]
      obtain ⟨h1, h2⟩ := ih (c / e.resources.length)
        (cost.sub (e.resources.getD (c % e.resources.length) Resource.Wood))
      exact ⟨matle_trans h1 (matle_sub_self _ _), by rw [h2, Cost.coins_sub]⟩

theorem own_combination_realizes (choices : List UsableResources) (picks : List Resource)
    (hf : List.Forall₂ (fun (pk : Resource) (ch : UsableResources) => pk ∈ ch.resources) picks
      choices) :
    ∃ m, m < own_combination_count choices ∧
      ∀ cost, own_combination choices m cost = apply_picks cost picks := by
  induction hf with
  | nil => exact ⟨0, by simp [own_combination_count], fun cost => rfl⟩
  | cons hpe hrest ih =>
      rename_i p e ps es
      obtain ⟨m2, hm2, hval⟩ := ih
      have hlen : 0 < e.resources.length := List.length_pos.mpr (List.ne_nil_of_mem hpe)
      have hidx : e.resources.indexOf p < e.resources.length :=
        List.indexOf_lt_length.mpr hpe
      refine ⟨e.resources.indexOf p + e.resources.length * m2, ?_, ?_⟩
      · rw [own_combination_count_cons]
        calc e.resources.indexOf p + e.resources.length * m2
            < e.resources.length * (m2 + 1) := by rw [Nat.mul_succ]; omega
          _ ≤ e.resources.length * own_combination_count es :=
              Nat.mul_le_mul_left _ (by omega)
      · intro cost
        have hmod : (e.resources.indexOf p + e.resources.length * m2) % e.resources.length =
            e.resources.indexOf p := by
          rw [Nat.add_mul_mod_self_left]
          exact Nat.mod_eq_of_lt hidx
        have hdiv : (e.resources.indexOf p + e.resources.length * m2) / e.resources.length =
            m2 := by
          rw [Nat.add_mul_div_left _ _ hlen, Nat.div_eq_of_lt hidx]
          simp
        rw [own_combination, hmod, hdiv,
          List.getD_eq_getElem _ _ hidx, List.getElem_indexOf hidx, hval, apply_picks_cons]

theorem apply_picks_satisfied_mono {cost2 : Cost} {picks picks2 : List Resource}
    (hsat : (apply_picks cost2 picks).satisfied = true)
    (hcnt : ∀ K : Resource, cost2.has K = true → picks.count K ≤ picks2.count K) :
    (apply_picks cost2 picks2).satisfied = true := by
  rw [Cost.satisfied_iff] at hsat ⊢
  obtain ⟨hcoins, hres⟩ := hsat
  rw [apply_picks_coins] at hcoins
  constructor
  · rw [apply_picks_coins]
    exact hcoins
  · intro r
    rw [apply_picks_getRes]
    by_cases hh : cost2.has r = true
    · have h1 := hcnt r hh
      have h2 := hres r
      rw [apply_picks_getRes] at h2
      omega
    · rw [Cost.has_iff] at hh
      push_neg at hh
      have : (0 : Int) ≤ (picks2.count r : Int) := Int.natCast_nonneg _
      omega

/-- The filtered option list an own (Choice) producer contributes. -/
def own_choice_options (y : Card) (cost : Cost) : List Resource :=
  match y.power with
  | Power.Producer (ProducedResources.Choice rs) => rs.filter (fun r => cost.has r)
  | Power.PurchasableProducer (ProducedResources.Choice rs) => rs.filter (fun r => cost.has r)
  | _ => []

theorem card_entries_own (y : Card) (cost : Cost) :
    card_entries y cost Source.Own =
      if (own_choice_options y cost).isEmpty then []
      else [{ card := y, resources := own_choice_options y cost, source := Source.Own }] := by
  unfold card_entries own_choice_options
  cases hp : y.power with
  | Producer pr =>
      cases pr with
      | Single r => simp [produced_entries]
      | Double r => simp [produced_entries]
      | Choice rs => simp [produced_entries]
  | PurchasableProducer pr =>
      cases pr with
      | Single r => simp [produced_entries]
      | Double r => simp [produced_entries]
      | Choice rs => simp [produced_entries]
  | VictoryPoints n => rfl
  | Coins n => rfl
  | BuyBrownAntiClockwise => rfl
  | BuyBrownClockwise => rfl
  | BuyGrey => rfl
  | Science items => rfl
  | Shields n => rfl
  | PerGameItemRewards => rfl

theorem own_choice_options_mono {y : Card} {cost cost2 : Cost} (hm : matle cost2 cost)
    {r : Resource} (hr : r ∈ own_choice_options y cost2) : r ∈ own_choice_options y cost := by
  unfold own_choice_options at hr ⊢
  cases hp : y.power with
  | Producer pr =>
      cases pr with
      | Single r0 => rw [hp] at hr; simp at hr
      | Double r0 => rw [hp] at hr; simp at hr
      | Choice rs =>
          rw [hp] at hr
          rw [List.mem_filter] at hr ⊢
          exact ⟨hr.1, Cost.has_of_matle hm hr.2⟩
  | PurchasableProducer pr =>
      cases pr with
      | Single r0 => rw [hp] at hr; simp at hr
      | Double r0 => rw [hp] at hr; simp at hr
      | Choice rs =>
          rw [hp] at hr
          rw [List.mem_filter] at hr ⊢
          exact ⟨hr.1, Cost.has_of_matle hm hr.2⟩
  | VictoryPoints n => rw [hp] at hr; simp at hr
  | Coins n => rw [hp] at hr; simp at hr
  | BuyBrownAntiClockwise => rw [hp] at hr; simp at hr
  | BuyBrownClockwise => rw [hp] at hr; simp at hr
  | BuyGrey => rw [hp] at hr; simp at hr
  | Science items => rw [hp] at hr; simp at hr
  | Shields n => rw [hp] at hr; simp at hr
  | PerGameItemRewards => rw [hp] at hr; simp at hr

theorem own_choice_options_has {y : Card} {cost cost2 : Cost} {r : Resource}
    (hr : r ∈ own_choice_options y cost) (hh : cost2.has r = true) :
    r ∈ own_choice_options y cost2 := by
  unfold own_choice_options at hr ⊢
  cases hp : y.power with
  | Producer pr =>
      cases pr with
      | Single r0 => rw [hp] at hr; simp at hr
      | Double r0 => rw [hp] at hr; simp at hr
      | Choice rs =>
          rw [hp] at hr
          rw [List.mem_filter] at hr ⊢
          exact ⟨hr.1, hh⟩
  | PurchasableProducer pr =>
      cases pr with
      | Single r0 => rw [hp] at hr; simp at hr
      | Double r0 => rw [hp] at hr; simp at hr
      | Choice rs =>
          rw [hp] at hr
          rw [List.mem_filter] at hr ⊢
          exact ⟨hr.1, hh⟩
  | VictoryPoints n => rw [hp] at hr; simp at hr
  | Coins n => rw [hp] at hr; simp at hr
  | BuyBrownAntiClockwise => rw [hp] at hr; simp at hr
  | BuyBrownClockwise => rw [hp] at hr; simp at hr
  | BuyGrey => rw [hp] at hr; simp at hr
  | Science items => rw [hp] at hr; simp at hr
  | Shields n => rw [hp] at hr; simp at hr
  | PerGameItemRewards => rw [hp] at hr; simp at hr

theorem own_reassign (cards : List Card) (cost cost2 : Cost) (hm : matle cost2 cost)
    (picks : List Resource)
    (hf : List.Forall₂ (fun (pk : Resource) (ch : UsableResources) => pk ∈ ch.resources) picks
      (add_choices cards cost Source.Own)) :
    ∃ picks2, List.Forall₂ (fun (pk : Resource) (ch : UsableResources) => pk ∈ ch.resources)
        picks2 (add_choices cards cost2 Source.Own) ∧
      ∀ K : Resource, cost2.has K = true → picks.count K ≤ picks2.count K := by
  induction cards generalizing picks with
  | nil =>
      refine ⟨[], ?_, ?_⟩
      · exact List.Forall₂.nil
      · rw [add_choices] at hf
        rw [List.forall₂_nil_right_iff] at hf
        subst hf
        intro K _
        simp
  | cons y rest ih =>
      rw [add_choices, card_entries_own] at hf ⊢
      by_cases hopt : (own_choice_options y cost).isEmpty
      · have hcan : (own_choice_options y cost2).isEmpty := by
          rw [List.isEmpty_iff] at hopt ⊢
          rw [List.eq_nil_iff_forall_not_mem] at hopt ⊢
          intro r hr
          exact hopt r (own_choice_options_mono hm hr)
        rw [if_pos hopt, List.nil_append] at hf
        rw [if_pos hcan, List.nil_append]
        exact ih picks hf
      · rw [if_neg hopt, List.singleton_append] at hf
        cases hf with
        | cons hpe hrest =>
            rename_i p ps
            obtain ⟨ps2, hps2, hcnt⟩ := ih ps hrest
            by_cases hcan : (own_choice_options y cost2).isEmpty
            · rw [if_pos hcan, List.nil_append]
              refine ⟨ps2, hps2, ?_⟩
              intro K hK
              have hne : K ≠ p := by
                intro he
                subst he
                have : K ∈ own_choice_options y cost2 :=
                  own_choice_options_has hpe hK
                rw [List.isEmpty_iff, List.eq_nil_iff_forall_not_mem] at hcan
                exact hcan K this
              rw [List.count_cons_of_ne hne]
              exact hcnt K hK
            · rw [if_neg hcan, List.singleton_append]
              have hcne : own_choice_options y cost2 ≠ [] := by
                rw [List.isEmpty_iff] at hcan
                exact hcan
              classical
              by_cases hpc : p ∈ own_choice_options y cost2
              · refine ⟨p :: ps2, List.Forall₂.cons hpc hps2, ?_⟩
                intro K hK
                have := hcnt K hK
                rcases eq_or_ne K p with he | he
                · subst he
                  rw [List.count_cons_self, List.count_cons_self]
                  omega
                · rw [List.count_cons_of_ne he, List.count_cons_of_ne he]
                  omega
              · obtain ⟨q, hq⟩ := List.exists_mem_of_ne_nil _ hcne
                refine ⟨q :: ps2, List.Forall₂.cons hq hps2, ?_⟩
                intro K hK
                have := hcnt K hK
                have hne : K ≠ p := by
                  intro he
                  subst he
                  exact hpc (own_choice_options_has hpe hK)
                rw [List.count_cons_of_ne hne]
                rcases eq_or_ne K q with he | he
                · subst he
                  rw [List.count_cons_self]
                  omega
                · rw [List.count_cons_of_ne he]
                  omega

theorem satisfied_of_matle {a b : Cost} (hm : matle a b) (hc : a.coins ≤ b.coins)
    (hs : b.satisfied = true) : a.satisfied = true := by
  rw [Cost.satisfied_iff] at hs ⊢
  rw [matle_iff] at hm
  exact ⟨le_trans hc hs.1, fun r => le_trans (hm r) (hs.2 r)⟩

theorem resources_for_has {x : Card} {cost0 cost1 : Cost} {res : Resource}
    (hr : res ∈ resources_for x cost0) (hh : cost1.has res = true) :
    res ∈ resources_for x cost1 := by
  unfold resources_for at hr ⊢
  cases hp : x.power with
  | Producer pr =>
      rw [hp] at hr
      cases pr with
      | Single r0 => exact hr
      | Double r0 => exact hr
      | Choice rs =>
          rw [List.mem_filter] at hr ⊢
          exact ⟨hr.1, hh⟩
  | PurchasableProducer pr =>
      rw [hp] at hr
      cases pr with
      | Single r0 => exact hr
      | Double r0 => exact hr
      | Choice rs =>
          rw [List.mem_filter] at hr ⊢
          exact ⟨hr.1, hh⟩
  | VictoryPoints n => rw [hp] at hr; simp at hr
  | Coins n => rw [hp] at hr; simp at hr
  | BuyBrownAntiClockwise => rw [hp] at hr; simp at hr
  | BuyBrownClockwise => rw [hp] at hr; simp at hr
  | BuyGrey => rw [hp] at hr; simp at hr
  | Science items => rw [hp] at hr; simp at hr
  | Shields n => rw [hp] at hr; simp at hr
  | PerGameItemRewards => rw [hp] at hr; simp at hr

theorem entry_count_right_left (x : Card) (c : Cost) :
    entry_count x c Source.RightNeighbour = entry_count x c Source.LeftNeighbour := by
  unfold entry_count
  cases hp : x.power with
  | Producer pr => rfl
  | PurchasableProducer pr => cases pr <;> simp
  | VictoryPoints n => rfl
  | Coins n => rfl
  | BuyBrownAntiClockwise => rfl
  | BuyBrownClockwise => rfl
  | BuyGrey => rfl
  | Science items => rfl
  | Shields n => rfl
  | PerGameItemRewards => rfl

theorem entry_count_le_of_has {x : Card} {cost0 cost1 : Cost} {res : Resource}
    (hr : res ∈ resources_for x cost0) (hh : cost1.has res = true) :
    entry_count x cost0 Source.LeftNeighbour ≤ entry_count x cost1 Source.LeftNeighbour := by
  cases hp : x.power with
  | Producer pr => simp [entry_count, hp]
  | PurchasableProducer pr =>
      cases pr with
      | Single r0 =>
          have hres : res = r0 := by simpa [resources_for, hp] using hr
          subst hres
          by_cases h0 : cost0.has res = true <;> simp [entry_count, hp, hh, h0]
      | Double r0 =>
          have hres : res = r0 := by simpa [resources_for, hp] using hr
          subst hres
          by_cases h0 : cost0.has res = true <;> simp [entry_count, hp, hh, h0]
      | Choice rs =>
          have hmem : res ∈ rs := by
            simp only [resources_for, hp, List.mem_filter] at hr
            exact hr.1
          simp only [entry_count, hp]
          by_cases hch : (rs.filter (fun k => cost1.has k)).isEmpty = true
          · exfalso
            rw [List.isEmpty_iff, List.eq_nil_iff_forall_not_mem] at hch
            exact hch res (List.mem_filter.mpr ⟨hmem, hh⟩)
          · rw [if_neg hch]
            split <;> omega
  | VictoryPoints n => simp [resources_for, hp] at hr
  | Coins n => simp [resources_for, hp] at hr
  | BuyBrownAntiClockwise => simp [resources_for, hp] at hr
  | BuyBrownClockwise => simp [resources_for, hp] at hr
  | BuyGrey => simp [resources_for, hp] at hr
  | Science items => simp [resources_for, hp] at hr
  | Shields n => simp [resources_for, hp] at hr
  | PerGameItemRewards => simp [resources_for, hp] at hr

theorem can_play_card_eq (p : Player) (card : Card) (borrowing : Borrowing)
    (vg : VisibleGame) (hhand : card ∈ p.hand) (cost1 cost2 : Cost)
    (hL : can_play_side borrowing.left vg.left_neighbour
      (reduce_by_own_resources p card.cost) = some cost1)
    (hR : can_play_side borrowing.right vg.right_neighbour cost1 = some cost2) :
    can_play_card p card borrowing vg =
      (List.range (own_combination_count
          (add_choices p.built_structures cost2 Source.Own))).any
        (fun c =>
          (own_combination (add_choices p.built_structures cost2 Source.Own) c cost2).satisfied) := by
  rw [can_play_card, if_pos hhand]
  simp only [hL, hR]

theorem can_play_of_emitted (p : Player) (card : Card) (borrowing : Borrowing)
    (vg : VisibleGame) (hhand : card ∈ p.hand)
    (ha : Action.Build card borrowing ∈ (options_for_card p card vg).actions) :
    can_play p (Action.Build card borrowing) vg = true := by
  show can_play_card p card borrowing vg = true
  set cost0 := reduce_by_own_resources p card.cost with hcost0
  rcases options_emit p card vg _ ha with ⟨hsat, hb⟩ |
    ⟨hns, l, r, picks, esL, esR, haeq, hpicks, hsubL, hfL, hsubR, hfR, hreplay, hpsat⟩
  · injection hb with h1 h2
    subst h2
    rw [can_play_card_eq p card Borrowing.no_borrowing vg hhand cost0 cost0 rfl rfl]
    rw [List.any_eq_true]
    refine ⟨0, List.mem_range.mpr ?_, ?_⟩
    · exact own_combination_count_pos _ (fun e he => (add_choices_mem _ _ _ e he).2.2.2.1)
    · obtain ⟨hm, hc⟩ := own_combination_matle
        (add_choices p.built_structures cost0 Source.Own) 0 cost0
      exact satisfied_of_matle hm (le_of_eq hc) hsat
  · injection haeq with h1 h2
    subst h2
    have hcountL : ∀ x : Card, count_card_borrows l x ≤
        count_card_entries
          (add_choices (vg.left_neighbour).built_structures cost0 Source.LeftNeighbour) x := by
      intro x
      rw [forall₂_count_card hfL x]
      exact count_card_entries_sublist hsubL x
    have hcompatL : ∀ b ∈ l, ∀ e ∈
        add_choices (vg.left_neighbour).built_structures cost0 Source.LeftNeighbour,
        e.card = b.card → b.resource ∈ e.resources := by
      intro b hb e he hec
      obtain ⟨y, hy, hby⟩ := forall₂_mem_left hfL hb
      have hyF := add_choices_mem _ _ _ y (hsubL.subset hy)
      have heF := add_choices_mem _ _ _ e he
      rw [heF.2.2.1, hec, hby.1, ← hyF.2.2.1]
      exact hby.2
    have hL : can_play_side l vg.left_neighbour cost0 = some (pay_borrows cost0 l) :=
      check_borrows_of_matchable l _ cost0 hcountL hcompatL
    have hhasr : ∀ b ∈ r, (pay_borrows cost0 l).has b.resource = true := by
      intro b hb
      obtain ⟨xs, ys, hxy⟩ := List.append_of_mem hb
      have hdecomp : l ++ r = (l ++ xs) ++ b :: ys := by
        rw [hxy, List.append_assoc]
      obtain ⟨hhas, _⟩ := replay_borrows_split hreplay (l ++ xs) b ys hdecomp
      have hm : matle (pay_borrows (apply_picks cost0 picks) (l ++ xs))
          (pay_borrows cost0 l) := by
        rw [pay_borrows_append]
        exact matle_trans (pay_borrows_matle _ xs)
          (by rw [pay_borrows_apply_picks]; exact apply_picks_matle _ _)
      exact Cost.has_of_matle hm hhas
    have hcountR : ∀ x : Card, count_card_borrows r x ≤
        count_card_entries
          (add_choices (vg.right_neighbour).built_structures (pay_borrows cost0 l)
            Source.LeftNeighbour) x := by
      intro x
      by_cases hz : count_card_borrows r x = 0
      · rw [hz]
        exact Nat.zero_le _
      · obtain ⟨b, hb, hbx⟩ := count_card_borrows_pos (Nat.pos_of_ne_zero hz)
        obtain ⟨y, hy, hby⟩ := forall₂_mem_left hfR hb
        have hyF := add_choices_mem _ _ _ y (hsubR.subset hy)
        have hres : b.resource ∈ resources_for x cost0 := by
          rw [← hbx, hby.1, ← hyF.2.2.1]
          exact hby.2
        rw [forall₂_count_card hfR x]
        refine le_trans (count_card_entries_sublist hsubR x) ?_
        rw [count_card_entries_add_choices, count_card_entries_add_choices]
        refine Nat.mul_le_mul_left _ ?_
        rw [entry_count_right_left]
        exact entry_count_le_of_has hres (hhasr b hb)
    have hcompatR : ∀ b ∈ r, ∀ e ∈
        add_choices (vg.right_neighbour).built_structures (pay_borrows cost0 l)
          Source.LeftNeighbour,
        e.card = b.card → b.resource ∈ e.resources := by
      intro b hb e he hec
      obtain ⟨y, hy, hby⟩ := forall₂_mem_left hfR hb
      have hyF := add_choices_mem _ _ _ y (hsubR.subset hy)
      have heF := add_choices_mem _ _ _ e he
      rw [heF.2.2.1, hec, hby.1]
      refine @resources_for_has y.card cost0 (pay_borrows cost0 l) b.resource ?_ (hhasr b hb)
      rw [← hyF.2.2.1]
      exact hby.2
    have hR2 : can_play_side r vg.right_neighbour (pay_borrows cost0 l) =
        some (pay_borrows (pay_borrows cost0 l) r) :=
      check_borrows_of_matchable r _ (pay_borrows cost0 l) hcountR hcompatR
    rw [can_play_card_eq p card (Borrowing.mk l r) vg hhand (pay_borrows cost0 l)
      (pay_borrows (pay_borrows cost0 l) r) hL hR2]
    have hm2 : matle (pay_borrows (pay_borrows cost0 l) r) cost0 :=
      matle_trans (pay_borrows_matle _ r) (pay_borrows_matle _ l)
    obtain ⟨picks2, hpicks2, hcnt2⟩ :=
      own_reassign p.built_structures cost0 (pay_borrows (pay_borrows cost0 l) r) hm2
        picks hpicks
    obtain ⟨m, hmlt, hval⟩ := own_combination_realizes _ picks2 hpicks2
    rw [List.any_eq_true]
    refine ⟨m, List.mem_range.mpr hmlt, ?_⟩
    rw [hval (pay_borrows (pay_borrows cost0 l) r)]
    refine @apply_picks_satisfied_mono (pay_borrows (pay_borrows cost0 l) r) picks picks2 ?_ hcnt2
    have heq : apply_picks (pay_borrows (pay_borrows cost0 l) r) picks =
        pay_borrows (apply_picks cost0 picks) (l ++ r) := by
      rw [← pay_borrows_append, pay_borrows_apply_picks]
    rw [heq]
    exact hpsat

theorem can_play_borrows_on_board (p : Player) (card : Card) (borrowing : Borrowing)
    (vg : VisibleGame) (h : can_play_card p card borrowing vg = true) :
    card ∈ p.hand ∧
      (∀ b ∈ borrowing.left, b.card ∈ (vg.left_neighbour).built_structures) ∧
      (∀ b ∈ borrowing.right, b.card ∈ (vg.right_neighbour).built_structures) := by
  by_cases hhand : card ∈ p.hand
  · rw [can_play_card, if_pos hhand] at h
    rcases hL : can_play_side borrowing.left vg.left_neighbour
        (reduce_by_own_resources p card.cost) with _ | c1
    · simp only [hL] at h
      exact absurd h (by simp)
    · simp only [hL] at h
      rcases hR : can_play_side borrowing.right vg.right_neighbour c1 with _ | c2
      · simp only [hR] at h
        exact absurd h (by simp)
      · have hbl := check_borrows_mem (show check_borrows borrowing.left
            (add_choices (vg.left_neighbour).built_structures
              (reduce_by_own_resources p card.cost) Source.LeftNeighbour)
            (reduce_by_own_resources p card.cost) = some c1 from hL)
        have hbr := check_borrows_mem (show check_borrows borrowing.right
            (add_choices (vg.right_neighbour).built_structures c1 Source.LeftNeighbour)
            c1 = some c2 from hR)
        refine ⟨hhand, ?_, ?_⟩
        · intro b hb
          obtain ⟨e, he, hec, _⟩ := hbl b hb
          rw [← hec]
          exact (add_choices_mem _ _ _ e he).2.1
        · intro b hb
          obtain ⟨e, he, hec, _⟩ := hbr b hb
          rw [← hec]
          exact (add_choices_mem _ _ _ e he).2.1
  · rw [can_play_card, if_neg hhand] at h
    exact absurd h (by simp)

/-- The counterexample state for claim C2: a Colossus-of-Rhodes player
with 4 coins holding `Stockade` (cost: 1 wood). -/
def c2_player : Player := { demo_player [Card.Stockade] with coins := 4 }

/-- The counterexample borrowing for claim C2: two wood borrows from the
left neighbour where one would already satisfy the cost. -/
def c2_borrowing : Borrowing :=
  ⟨[⟨Card.LumberYard, Resource.Wood⟩, ⟨Card.TreeFarm, Resource.Wood⟩], []⟩

/-- The counterexample game view for claim C2: the left neighbour's board
holds `LumberYard` and `TreeFarm` (each offering wood). -/
def c2_vg : VisibleGame := demo_visible_game [Card.LumberYard, Card.TreeFarm] []

/-- Claim C2, counterexample to the stated equivalence: `can_play`
accepts this Build action with a two-wood borrowing (both borrows find
their structure on the left neighbour's board and the final cost is
satisfied), yet `options_for_card` never emits it — its combination loop
prunes the second borrow because its kind is no longer in deficit after
the first. So "`can_play` returns true only if the exact Borrowing is
one of the combinations `options_for_card` would emit" is false. -/
theorem C2_counterexample :
    can_play c2_player (Action.Build Card.Stockade c2_borrowing) c2_vg = true ∧
    Action.Build Card.Stockade c2_borrowing ∉
      (options_for_card c2_player Card.Stockade c2_vg).actions := by
  decide

/-- Claim C2 (amended): for a Build action, `can_play` returning true
implies (a) the card is in the player's hand and (b) every borrow names a
structure actually present on the stated neighbour's board; conversely,
if the card is in hand then every action `options_for_card` emits for it
is accepted by `can_play` (the resolver's output is sound, but `can_play`
also accepts over-borrowing combinations the resolver never emits, so
only this direction of clause (c) holds — see the counterexample).
`can_play` accepts a Discard action exactly when the card is in hand. -/
theorem C2_can_play (p : Player) (card : Card) (borrowing : Borrowing) (vg : VisibleGame) :
    (can_play p (Action.Build card borrowing) vg = true →
      card ∈ p.hand ∧
        (∀ b ∈ borrowing.left, b.card ∈ (vg.left_neighbour).built_structures) ∧
        (∀ b ∈ borrowing.right, b.card ∈ (vg.right_neighbour).built_structures)) ∧
    (card ∈ p.hand →
      Action.Build card borrowing ∈ (options_for_card p card vg).actions →
      can_play p (Action.Build card borrowing) vg = true) ∧
    (can_play p (Action.Discard card) vg = true ↔ card ∈ p.hand) := by
  refine ⟨?_, ?_, ?_⟩
  · intro h
    exact can_play_borrows_on_board p card borrowing vg h
  · exact can_play_of_emitted p card borrowing vg
  · show decide (card ∈ p.hand) = true ↔ card ∈ p.hand
    exact decide_eq_true_iff

/-- Concrete instance of the amended claim C2: the demo player holding
`Barracks` (whose residual cost its wonder's ore covers) may build it
with no borrowing — that action is emitted by `options_for_card` and
accepted by `can_play`. -/
theorem C2_can_play_witness :
    can_play (demo_player [Card.Barracks]) (Action.Build Card.Barracks Borrowing.no_borrowing)
      (demo_visible_game [] []) = true :=
  (C2_can_play (demo_player [Card.Barracks]) Card.Barracks Borrowing.no_borrowing
    (demo_visible_game [] [])).2.1 (by decide) (by decide)

end Wonder
